import Mathlib

/-!
Shallow embedding of the core of the `go-libp2p` dial worker
(`p2p/net/swarm/dial_worker.go`) and the WebRTC UDP multiplexer's flow table
(`udpmux`), together with proofs of the specified properties.

Conventions of the embedding:
* multiaddresses and UDP addresses are represented by their canonical string
  forms (Go indexes them by `string(addr.Bytes())` resp. `addr.String()`);
* Go maps are association lists with overwrite-on-insert semantics;
* nullable Go values are `Option`; a Go runtime panic (nil dereference) is the
  `none` result of an `Option`-returning operation, aborting the run.
-/

namespace DialQueue

/-- `network.AddrDelay`: an address together with its dial delay. -/
structure AddrDelay where
  Addr : String
  Delay : Nat
deriving DecidableEq, Repr

/-- The insertion part of `dialQueue.Add` (dial_worker.go:476-484): insert
before the first element with a strictly greater delay, else append. -/
def insertByDelay : List AddrDelay → AddrDelay → List AddrDelay
  | [], x => [x]
  | y :: ys, x => if x.Delay < y.Delay then x :: y :: ys else y :: insertByDelay ys x

/-- `dialQueue.Add` (dial_worker.go:462-485): if an entry with the same
address exists with the same delay, do nothing; if it exists with a different
delay, remove it (first matching index) and insert by delay order. -/
def dqAdd (q : List AddrDelay) (x : AddrDelay) : List AddrDelay :=
  match q.find? (fun y => y.Addr == x.Addr) with
  | some y =>
      if y.Delay = x.Delay then q
      else insertByDelay (q.eraseP (fun y => y.Addr == x.Addr)) x
  | none => insertByDelay q x

/-- `dialQueue.NextBatch` (dial_worker.go:488-503): pop the maximal front run
of entries whose delay equals the front's delay; returns (batch, remainder). -/
def dqNextBatch (q : List AddrDelay) : List AddrDelay × List AddrDelay :=
  match q with
  | [] => ([], [])
  | x :: _ =>
      (q.takeWhile (fun y => y.Delay == x.Delay), q.dropWhile (fun y => y.Delay == x.Delay))

/-- The delay-ordering invariant of the queue. -/
abbrev DelaySorted (q : List AddrDelay) : Prop :=
  q.Pairwise (fun u v => u.Delay ≤ v.Delay)

/-- The no-duplicate-addresses invariant of the queue. -/
abbrev NodupAddrs (q : List AddrDelay) : Prop :=
  (q.map AddrDelay.Addr).Nodup

theorem mem_insertByDelay {q : List AddrDelay} {x z : AddrDelay} :
    z ∈ insertByDelay q x ↔ z ∈ q ∨ z = x := by
  induction q with
  | nil => simp [insertByDelay]
  | cons y ys ih =>
      simp only [insertByDelay]
      split
      · simp only [List.mem_cons]
        tauto
      · simp only [List.mem_cons, ih]
        tauto

theorem insertByDelay_perm (q : List AddrDelay) (x : AddrDelay) :
    (insertByDelay q x).Perm (x :: q) := by
  induction q with
  | nil => simp [insertByDelay]
  | cons y ys ih =>
      simp only [insertByDelay]
      split
      · exact List.Perm.refl _
      · exact (List.Perm.cons y ih).trans (List.Perm.swap x y ys)

theorem insertByDelay_sorted {q : List AddrDelay} {x : AddrDelay}
    (h : DelaySorted q) : DelaySorted (insertByDelay q x) := by
  induction q with
  | nil => simp [insertByDelay, DelaySorted]
  | cons y ys ih =>
      simp only [DelaySorted, List.pairwise_cons] at h
      simp only [insertByDelay]
      split
      · rename_i hlt
        refine List.Pairwise.cons ?_ (List.Pairwise.cons h.1 h.2)
        intro z hz
        rcases List.mem_cons.mp hz with rfl | hz
        · exact Nat.le_of_lt hlt
        · exact Nat.le_trans (Nat.le_of_lt hlt) (h.1 z hz)
      · rename_i hge
        refine List.Pairwise.cons ?_ (ih h.2)
        intro z hz
        rcases mem_insertByDelay.mp hz with hz | rfl
        · exact h.1 z hz
        · exact Nat.le_of_not_lt hge

theorem nodupAddrs_of_sublist {q q' : List AddrDelay} (h : q'.Sublist q)
    (hnd : NodupAddrs q) : NodupAddrs q' :=
  List.Nodup.sublist (List.Sublist.map AddrDelay.Addr h) hnd

theorem delaySorted_of_sublist {q q' : List AddrDelay} (h : q'.Sublist q)
    (hs : DelaySorted q) : DelaySorted q' :=
  List.Pairwise.sublist h hs

theorem mem_eraseP_addr {q : List AddrDelay} {a : String} (hnd : NodupAddrs q) :
    ∀ z, z ∈ q.eraseP (fun y => y.Addr == a) ↔ z ∈ q ∧ z.Addr ≠ a := by
  induction q with
  | nil => simp
  | cons y ys ih =>
      simp only [NodupAddrs, List.map_cons, List.nodup_cons] at hnd
      intro z
      by_cases hy : y.Addr = a
      · rw [List.eraseP_cons_of_pos (by simpa using hy)]
        constructor
        · intro hz
          refine ⟨List.mem_cons_of_mem _ hz, ?_⟩
          intro hza
          exact hnd.1 (by rw [hy, ← hza]; exact List.mem_map_of_mem AddrDelay.Addr hz)
        · rintro ⟨hz, hza⟩
          rcases List.mem_cons.mp hz with rfl | hz
          · exact absurd hy hza
          · exact hz
      · rw [List.eraseP_cons_of_neg (by simpa using hy)]
        simp only [List.mem_cons, ih hnd.2 z]
        constructor
        · rintro (rfl | ⟨hz, hza⟩)
          · exact ⟨Or.inl rfl, hy⟩
          · exact ⟨Or.inr hz, hza⟩
        · rintro ⟨rfl | hz, hza⟩
          · exact Or.inl rfl
          · exact Or.inr ⟨hz, hza⟩

theorem addr_injOn {q : List AddrDelay} (hnd : NodupAddrs q) {y z : AddrDelay}
    (hy : y ∈ q) (hz : z ∈ q) (h : y.Addr = z.Addr) : y = z :=
  List.inj_on_of_nodup_map hnd hy hz h

theorem dqAdd_of_find_none {q : List AddrDelay} {x : AddrDelay}
    (h : q.find? (fun y => y.Addr == x.Addr) = none) :
    dqAdd q x = insertByDelay q x := by
  unfold dqAdd
  rw [h]

theorem dqAdd_of_find_same {q : List AddrDelay} {x y : AddrDelay}
    (h : q.find? (fun y => y.Addr == x.Addr) = some y) (hd : y.Delay = x.Delay) :
    dqAdd q x = q := by
  unfold dqAdd
  rw [h]
  simp [hd]

theorem dqAdd_of_find_diff {q : List AddrDelay} {x y : AddrDelay}
    (h : q.find? (fun y => y.Addr == x.Addr) = some y) (hd : y.Delay ≠ x.Delay) :
    dqAdd q x = insertByDelay (q.eraseP (fun y => y.Addr == x.Addr)) x := by
  unfold dqAdd
  rw [h]
  simp [hd]

/-- Membership in the queue after `Add`: the new entry is present, the old
entry for the same address (if any) is gone, everything else is untouched. -/
theorem mem_dqAdd {q : List AddrDelay} {x : AddrDelay} (hnd : NodupAddrs q) :
    ∀ z, z ∈ dqAdd q x ↔ (z ∈ q ∧ z.Addr ≠ x.Addr) ∨ z = x := by
  intro z
  cases hfind : q.find? (fun y => y.Addr == x.Addr) with
  | none =>
      have hnone : ∀ y ∈ q, y.Addr ≠ x.Addr := by
        intro y hy
        have := List.find?_eq_none.mp hfind y hy
        simpa using this
      rw [dqAdd_of_find_none hfind]
      simp only [mem_insertByDelay]
      constructor
      · rintro (hz | rfl)
        · exact Or.inl ⟨hz, hnone z hz⟩
        · exact Or.inr rfl
      · rintro (⟨hz, _⟩ | rfl)
        · exact Or.inl hz
        · exact Or.inr rfl
  | some y =>
      have hy : y ∈ q ∧ y.Addr = x.Addr := by
        have h1 := List.find?_some hfind
        have h2 := List.mem_of_find?_eq_some hfind
        exact ⟨h2, by simpa using h1⟩
      by_cases hdelay : y.Delay = x.Delay
      · have hyx : y = x := by
          cases y
          cases x
          simp_all
        rw [dqAdd_of_find_same hfind hdelay]
        constructor
        · intro hz
          by_cases hza : z.Addr = x.Addr
          · exact Or.inr ((addr_injOn hnd hz hy.1 (hza.trans hy.2.symm)).trans hyx)
          · exact Or.inl ⟨hz, hza⟩
        · rintro (⟨hz, _⟩ | rfl)
          · exact hz
          · exact hyx ▸ hy.1
      · rw [dqAdd_of_find_diff hfind hdelay]
        simp only [mem_insertByDelay, mem_eraseP_addr hnd]

theorem nodupAddrs_insertByDelay {q : List AddrDelay} {x : AddrDelay}
    (hnd : NodupAddrs q) (hx : x.Addr ∉ q.map AddrDelay.Addr) :
    NodupAddrs (insertByDelay q x) := by
  have hperm : (insertByDelay q x).Perm (x :: q) := insertByDelay_perm q x
  have hmap : ((insertByDelay q x).map AddrDelay.Addr).Perm ((x :: q).map AddrDelay.Addr) :=
    hperm.map _
  rw [NodupAddrs, hmap.nodup_iff]
  simpa [List.nodup_cons, hx] using hnd

theorem nodupAddrs_dqAdd {q : List AddrDelay} {x : AddrDelay} (hnd : NodupAddrs q) :
    NodupAddrs (dqAdd q x) := by
  cases hfind : q.find? (fun y => y.Addr == x.Addr) with
  | none =>
      rw [dqAdd_of_find_none hfind]
      refine nodupAddrs_insertByDelay hnd ?_
      intro hmem
      rcases List.mem_map.mp hmem with ⟨y, hy, hya⟩
      have := List.find?_eq_none.mp hfind y hy
      simp [hya] at this
  | some y =>
      by_cases hdelay : y.Delay = x.Delay
      · rw [dqAdd_of_find_same hfind hdelay]
        exact hnd
      · rw [dqAdd_of_find_diff hfind hdelay]
        have hsub := List.eraseP_sublist (p := fun y => y.Addr == x.Addr) (l := q)
        refine nodupAddrs_insertByDelay (nodupAddrs_of_sublist hsub hnd) ?_
        intro hmem
        rcases List.mem_map.mp hmem with ⟨z, hz, hza⟩
        exact ((mem_eraseP_addr hnd z).mp hz).2 hza

theorem delaySorted_dqAdd {q : List AddrDelay} {x : AddrDelay} (hs : DelaySorted q) :
    DelaySorted (dqAdd q x) := by
  cases hfind : q.find? (fun y => y.Addr == x.Addr) with
  | none =>
      rw [dqAdd_of_find_none hfind]
      exact insertByDelay_sorted hs
  | some y =>
      by_cases hdelay : y.Delay = x.Delay
      · rw [dqAdd_of_find_same hfind hdelay]
        exact hs
      · rw [dqAdd_of_find_diff hfind hdelay]
        exact insertByDelay_sorted (delaySorted_of_sublist (List.eraseP_sublist _) hs)

theorem dqNextBatch_snd_sublist (q : List AddrDelay) : (dqNextBatch q).2.Sublist q := by
  cases q with
  | nil => simp [dqNextBatch]
  | cons x xs => exact List.dropWhile_sublist _

theorem head_delay_min {x : AddrDelay} {rest : List AddrDelay}
    (hs : DelaySorted (x :: rest)) : ∀ e ∈ x :: rest, x.Delay ≤ e.Delay := by
  intro e he
  rcases List.mem_cons.mp he with rfl | he
  · exact Nat.le_refl _
  · exact (List.pairwise_cons.mp hs).1 e he

theorem mem_takeWhile_delay {l : List AddrDelay} {d : Nat}
    (hs : DelaySorted l) (hmin : ∀ e ∈ l, d ≤ e.Delay) :
    ∀ z ∈ l, z.Delay = d → z ∈ l.takeWhile (fun y => y.Delay == d) := by
  induction l with
  | nil => simp
  | cons y ys ih =>
      intro z hz hzd
      by_cases hy : y.Delay = d
      · rw [List.takeWhile_cons_of_pos (by simpa using hy)]
        rcases List.mem_cons.mp hz with rfl | hz
        · exact List.mem_cons_self _ _
        · refine List.mem_cons_of_mem _ ?_
          exact ih (List.pairwise_cons.mp hs).2
            (fun e he => hmin e (List.mem_cons_of_mem _ he)) z hz hzd
      · exfalso
        rcases List.mem_cons.mp hz with rfl | hz
        · exact hy hzd
        · have h1 : y.Delay ≤ z.Delay := (List.pairwise_cons.mp hs).1 z hz
          have h2 : d ≤ y.Delay := hmin y (List.mem_cons_self _ _)
          exact hy (Nat.le_antisymm (hzd ▸ h1) h2)

/-- C7: after any `Add` or `NextBatch` on a well-formed queue, the queue stays
well-formed (no duplicate addresses, non-decreasing delay order); `Add` of an
entry already present (same address, same delay) is a no-op, and `Add` with a
different delay replaces the old entry for that address: the resulting queue
contains exactly the entries with a different address, plus the new entry. -/
theorem claim_C7_dialQueue_no_duplicates (q : List AddrDelay) (x : AddrDelay)
    (hnd : NodupAddrs q) (hs : DelaySorted q) :
    NodupAddrs (dqAdd q x) ∧ DelaySorted (dqAdd q x) ∧
    NodupAddrs (dqNextBatch q).2 ∧ DelaySorted (dqNextBatch q).2 ∧
    (x ∈ q → dqAdd q x = q) ∧
    (∀ z, z ∈ dqAdd q x ↔ (z ∈ q ∧ z.Addr ≠ x.Addr) ∨ z = x) := by
  refine ⟨nodupAddrs_dqAdd hnd, delaySorted_dqAdd hs,
    nodupAddrs_of_sublist (dqNextBatch_snd_sublist q) hnd,
    delaySorted_of_sublist (dqNextBatch_snd_sublist q) hs, ?_, mem_dqAdd hnd⟩
  intro hx
  cases hfind : q.find? (fun y => y.Addr == x.Addr) with
  | none =>
      exfalso
      have := List.find?_eq_none.mp hfind x hx
      simp at this
  | some y =>
      have hy : y ∈ q ∧ y.Addr = x.Addr :=
        ⟨List.mem_of_find?_eq_some hfind, by simpa using List.find?_some hfind⟩
      have hyx : y = x := addr_injOn hnd hy.1 hx hy.2
      exact dqAdd_of_find_same hfind (by rw [hyx])

theorem claim_C7_witness :
    NodupAddrs (dqAdd [⟨"a", 1⟩, ⟨"b", 2⟩] ⟨"a", 3⟩) :=
  (claim_C7_dialQueue_no_duplicates [⟨"a", 1⟩, ⟨"b", 2⟩] ⟨"a", 3⟩
    (by decide) (by decide)).1

/-- C8: on a well-formed queue, after `Add ⟨a, d⟩`, a single `NextBatch`
returns a batch containing address `a` iff `d` is the minimum delay present
in the queue after the `Add`. -/
theorem claim_C8_nextBatch_min_delay (q : List AddrDelay) (a : String) (d : Nat)
    (hnd : NodupAddrs q) (hs : DelaySorted q) :
    (∃ e ∈ (dqNextBatch (dqAdd q ⟨a, d⟩)).1, e.Addr = a) ↔
      (∀ e ∈ dqAdd q ⟨a, d⟩, d ≤ e.Delay) := by
  have hnd' : NodupAddrs (dqAdd q ⟨a, d⟩) := nodupAddrs_dqAdd hnd
  have hs' : DelaySorted (dqAdd q ⟨a, d⟩) := delaySorted_dqAdd hs
  have hx : (⟨a, d⟩ : AddrDelay) ∈ dqAdd q ⟨a, d⟩ := (mem_dqAdd hnd _).mpr (Or.inr rfl)
  obtain ⟨x₀, rest, hq⟩ : ∃ x₀ rest, dqAdd q ⟨a, d⟩ = x₀ :: rest := by
    cases hqq : dqAdd q ⟨a, d⟩ with
    | nil => rw [hqq] at hx; cases hx
    | cons x₀ rest => exact ⟨x₀, rest, rfl⟩
  have hbatch : (dqNextBatch (dqAdd q ⟨a, d⟩)).1 =
      (dqAdd q ⟨a, d⟩).takeWhile (fun y => y.Delay == x₀.Delay) := by
    rw [hq]
    rfl
  have hmin0 : ∀ e ∈ dqAdd q ⟨a, d⟩, x₀.Delay ≤ e.Delay := by
    rw [hq] at hs' ⊢
    exact head_delay_min hs'
  constructor
  · rintro ⟨e, he, hea⟩
    have heq : e ∈ dqAdd q ⟨a, d⟩ := by
      rw [hbatch] at he
      exact (List.takeWhile_sublist _).subset he
    have hde : e.Delay = x₀.Delay := by
      rw [hbatch] at he
      simpa using List.mem_takeWhile_imp he
    have hex : e = ⟨a, d⟩ := addr_injOn hnd' heq hx hea
    intro e' he'
    have := hmin0 e' he'
    have hb : d = x₀.Delay := by rw [← hde, hex]
    rw [hb]
    exact this
  · intro hmin
    have hxd : x₀.Delay = d := by
      have h1 : d ≤ x₀.Delay := hmin x₀ (by rw [hq]; exact List.mem_cons_self _ _)
      have h2 : x₀.Delay ≤ d := hmin0 ⟨a, d⟩ hx
      exact Nat.le_antisymm h2 h1
    refine ⟨⟨a, d⟩, ?_, rfl⟩
    rw [hbatch, hxd]
    exact mem_takeWhile_delay hs' hmin ⟨a, d⟩ hx rfl

theorem claim_C8_witness :
    ∃ e ∈ (dqNextBatch (dqAdd [⟨"b", 5⟩] ⟨"a", 2⟩)).1, e.Addr = "a" :=
  (claim_C8_nextBatch_min_delay [⟨"b", 5⟩] "a" 2 (by decide) (by decide)).mpr
    (by decide)

end DialQueue

namespace UdpMux

/-!
Embedding of the WebRTC UDP multiplexer's flow table (`src/unnamed/part_000`,
package `udpmux`): `udpMuxStorage` with its dual maps, and the `UDPMux`
wrapper operations `GetConn` / `getOrCreateConn` / `RemoveConnByUfrag`.
Go maps are modelled as association lists with overwrite-on-insert and
first-match lookup; a Go runtime panic is the `none` of an `Option` result.
-/

/-- A non-nil `net.Addr` value: either a `*net.UDPAddr` (family plus its
`String()` form) or some other address type. -/
inductive NetAddr where
  | udp (isIPv6 : Bool) (str : String)
  | other (str : String)
deriving DecidableEq, Repr

/-- `addr.String()` on a non-nil `net.Addr`. -/
def NetAddr.string : NetAddr → String
  | .udp _ s => s
  | .other s => s

/-- `muxedConnection`, reduced to an identity and the fields the flow table
reads. The constructor `newMuxedConnection` is not under `src/`; modelled
from the spec: "construct a new MuxedConnection ... the new flow's initial
remote is `addr`", with `conn.Address()` returning that stored (possibly
nil) remote address. -/
structure MConn where
  id : Nat
  addr : Option NetAddr
deriving DecidableEq, Repr

/-- `ufragConnKey` (part_000:207-210). -/
structure UfragKey where
  ufrag : String
  isIPv6 : Bool
deriving DecidableEq, Repr

/-- Go map lookup on an association list: first binding wins. -/
def mlookup {κ β : Type} [DecidableEq κ] : List (κ × β) → κ → Option β
  | [], _ => none
  | e :: rest, k => if e.1 = k then some e.2 else mlookup rest k

/-- Go map deletion: drop every binding of the key. -/
def merase {κ β : Type} [DecidableEq κ] (m : List (κ × β)) (k : κ) : List (κ × β) :=
  m.filter (fun e => decide (¬ e.1 = k))

/-- Go map assignment: overwrite the binding of the key. -/
def minsert {κ β : Type} [DecidableEq κ] (m : List (κ × β)) (k : κ) (v : β) :
    List (κ × β) :=
  (k, v) :: merase m k

theorem mlookup_merase {κ β : Type} [DecidableEq κ] (m : List (κ × β)) (k k' : κ) :
    mlookup (merase m k) k' = if k' = k then none else mlookup m k' := by
  induction m with
  | nil => simp [merase, mlookup]
  | cons e rest ih =>
      by_cases hek : e.1 = k
      · have h1 : merase (e :: rest) k = merase rest k := by
          simp [merase, List.filter, hek]
        rw [h1, ih]
        by_cases hk : k' = k
        · simp [hk]
        · have h2 : mlookup (e :: rest) k' = mlookup rest k' := by
            have : ¬ e.1 = k' := by rw [hek]; exact fun h => hk h.symm
            simp [mlookup, this]
          simp [hk, h2]
      · have h1 : merase (e :: rest) k = e :: merase rest k := by
          simp [merase, List.filter, hek]
        rw [h1]
        by_cases hek' : e.1 = k'
        · have hk : ¬ k' = k := fun h => hek (h ▸ hek')
          simp [mlookup, hek', hk]
        · simp only [mlookup, if_neg hek', ih]

theorem mlookup_minsert {κ β : Type} [DecidableEq κ] (m : List (κ × β)) (k k' : κ)
    (v : β) : mlookup (minsert m k v) k' = if k' = k then some v else mlookup m k' := by
  by_cases hk : k' = k
  · simp [minsert, mlookup, hk]
  · simp only [minsert, mlookup, if_neg hk]
    rw [if_neg (fun h => hk (h.symm)), mlookup_merase, if_neg hk]

/-- `udpMuxStorage` (part_000:233-238): the two maps, plus a counter that
numbers freshly constructed connections. -/
structure Storage where
  ufragMap : List (UfragKey × MConn)
  addrMap : List (String × MConn)
  nextId : Nat
deriving DecidableEq, Repr

def emptyStorage : Storage := ⟨[], [], 0⟩

/-- `udpMuxStorage.GetOrCreateConn` (part_000:260-275). If the ufrag key is
present the existing connection is returned and neither map is touched.
Otherwise a new connection is constructed and inserted into both maps.
Result `none` is the Go runtime panic: with a nil `addr`, the creation path
evaluates `addr.String()` on a nil interface (part_000:272) and crashes, so
the run aborts. -/
def Storage.getOrCreateConn (s : Storage) (ufrag : String) (isIPv6 : Bool)
    (addr : Option NetAddr) : Option (Bool × MConn × Storage) :=
  let key : UfragKey := ⟨ufrag, isIPv6⟩
  match mlookup s.ufragMap key with
  | some conn => some (false, conn, s)
  | none =>
      match addr with
      | none => none
      | some a =>
          let conn : MConn := ⟨s.nextId, some a⟩
          some (true, conn,
            { ufragMap := minsert s.ufragMap key conn
              addrMap := minsert s.addrMap a.string conn
              nextId := s.nextId + 1 })

/-- `udpMuxStorage.GetConnByAddr` (part_000:277-282). -/
def Storage.getConnByAddr (s : Storage) (addr : String) : Option MConn :=
  mlookup s.addrMap addr

/-- One iteration of the loop in `udpMuxStorage.RemoveConnByUfrag`
(part_000:251-257): remove the ufrag binding for one family and the address
binding of the removed connection. `none` is the panic of
`conn.Address().String()` on a connection holding a nil address. -/
def Storage.removeOne (s : Storage) (key : UfragKey) : Option Storage :=
  match mlookup s.ufragMap key with
  | none => some s
  | some conn =>
      match conn.addr with
      | none => none
      | some a =>
          some { s with ufragMap := merase s.ufragMap key
                        addrMap := merase s.addrMap a.string }

/-- `udpMuxStorage.RemoveConnByUfrag` (part_000:247-258): the loop runs the
IPv6 family first, then IPv4. -/
def Storage.removeConnByUfrag (s : Storage) (ufrag : String) : Option Storage := do
  let s1 ← s.removeOne ⟨ufrag, true⟩
  s1.removeOne ⟨ufrag, false⟩

/-- `UDPMux`, reduced to the state its flow-table operations read: whether
`ctx` is cancelled, and the storage. -/
structure Mux where
  closed : Bool
  storage : Storage
deriving DecidableEq, Repr

def freshMux : Mux := ⟨false, emptyStorage⟩

/-- Result of `UDPMux.GetConn`. `crash` is a Go runtime panic. -/
inductive GetConnResult where
  | ok (conn : MConn) (m : Mux)
  | errUnexpectedType
  | errClosedPipe
  | crash
deriving DecidableEq, Repr

/-- `UDPMux.GetConn` (part_000:83-90) composed with `UDPMux.getOrCreateConn`
(part_000:112-120): a non-UDP non-nil address is rejected; the family is
IPv6 only for an IPv6 `*net.UDPAddr`; a cancelled mux returns
`io.ErrClosedPipe`; otherwise the storage get-or-create runs. -/
def Mux.getConn (m : Mux) (ufrag : String) (addr : Option NetAddr) : GetConnResult :=
  match addr with
  | some (.other _) => .errUnexpectedType
  | _ =>
      let isIPv6 : Bool := match addr with
        | some (.udp v6 _) => v6
        | _ => false
      if m.closed then .errClosedPipe
      else
        match m.storage.getOrCreateConn ufrag isIPv6 addr with
        | none => .crash
        | some (_, conn, s') => .ok conn { m with storage := s' }

/-- `UDPMux.RemoveConnByUfrag` (part_000:106-110): the storage removal is
guarded by `ufrag != ""`. -/
def Mux.removeConnByUfrag (m : Mux) (ufrag : String) : Option Mux :=
  if ufrag ≠ "" then
    (m.storage.removeConnByUfrag ufrag).map (fun s' => { m with storage := s' })
  else
    some m

/-- C3 is refuted on the code: `GetConn` with a nil address and a ufrag that
has no flow yet reaches `s.addrMap[addr.String()] = conn` (part_000:272)
with `addr` a nil `net.Addr`, a nil-interface method call, i.e. a runtime
panic — not a connection and a nil error. `GetConn` itself explicitly
tolerates nil (`!ok && addr != nil`, part_000:85), so nil is an anticipated
input and the storage-layer crash contradicts that intent. -/
theorem claim_C3_nil_addr_crashes :
    Mux.getConn freshMux "u" none = .crash ∧
    (∀ m : Mux, ∀ u : String,
      mlookup m.storage.ufragMap ⟨u, false⟩ = none → m.closed = false →
      m.getConn u none = .crash) := by
  constructor
  · rfl
  · intro m u hl hc
    simp only [Mux.getConn, hc, Bool.false_eq_true, if_false]
    rw [show m.storage.getOrCreateConn u false none = none by
      simp only [Storage.getOrCreateConn, hl]]

theorem claim_C3_witness :
    mlookup freshMux.storage.ufragMap ⟨"u", false⟩ = none ∧
    Mux.getConn freshMux "u" none = GetConnResult.crash :=
  ⟨rfl, (claim_C3_nil_addr_crashes.2 freshMux "u" rfl rfl)⟩

/-- The storage state after `GetOrCreateConn "u" false (addr "a1")` on the
empty storage: connection 0 is bound under the ufrag key and under "a1". -/
def demoConn : MConn := ⟨0, some (.udp false "a1")⟩

def demoS1 : Storage :=
  ⟨[(⟨"u", false⟩, demoConn)], [("a1", demoConn)], 1⟩

/-- C2 as stated is false on the code: when `GetOrCreateConn` finds an
existing connection for the ufrag key it returns it without touching the
address map (part_000:266-267), so a subsequent `GetConnByAddr` on the new
address finds nothing. Here: "a1" created the flow, the same ufrag queried
from "a2" returns that flow, and `GetConnByAddr "a2"` misses. -/
theorem claim_C2_counterexample :
    Storage.getOrCreateConn emptyStorage "u" false (some (.udp false "a1"))
      = some (true, demoConn, demoS1) ∧
    Storage.getOrCreateConn demoS1 "u" false (some (.udp false "a2"))
      = some (false, demoConn, demoS1) ∧
    Storage.getConnByAddr demoS1 "a2" = none ∧
    Storage.getConnByAddr demoS1 "a2" ≠ some demoConn := by
  refine ⟨rfl, rfl, rfl, ?_⟩
  intro h
  cases h

/-- C2 amended: when `GetOrCreateConn` *creates* the connection
(`created = true`), a subsequent `GetConnByAddr` on the same address returns
that same connection; the existing-connection path leaves the address map
unchanged and gives no such guarantee. -/
theorem claim_C2_created_conn_found_by_addr (s : Storage) (u : String) (v6 : Bool)
    (a : NetAddr) (conn : MConn) (s' : Storage)
    (h : s.getOrCreateConn u v6 (some a) = some (true, conn, s')) :
    s'.getConnByAddr a.string = some conn := by
  cases hl : mlookup s.ufragMap ⟨u, v6⟩ with
  | some c =>
      simp only [Storage.getOrCreateConn, hl] at h
      exact absurd (congrArg Prod.fst (Option.some.inj h)) (by simp)
  | none =>
      simp only [Storage.getOrCreateConn, hl, Option.some.injEq, Prod.mk.injEq,
        true_and] at h
      obtain ⟨hconn, hs'⟩ := h
      rw [← hs']
      simp only [Storage.getConnByAddr]
      rw [mlookup_minsert]
      simp [hconn]

theorem claim_C2_witness :
    Storage.getConnByAddr demoS1 "a1" = some demoConn :=
  claim_C2_created_conn_found_by_addr emptyStorage "u" false (.udp false "a1")
    demoConn demoS1 rfl

/-- C10: `UDPMux.RemoveConnByUfrag ""` is a no-op at the mux layer for every
state (the guard `ufrag != ""` at part_000:107), even though a flow can be
registered under the empty ufrag via `GetConn` and the storage layer itself
has no such guard: on the state holding the empty-ufrag flow, the storage
`RemoveConnByUfrag ""` empties both maps. -/
theorem claim_C10_empty_ufrag_guard :
    (∀ m : Mux, m.removeConnByUfrag "" = some m) ∧
    Mux.getConn freshMux "" (some (.udp false "a1"))
      = .ok demoConn ⟨false, ⟨[(⟨"", false⟩, demoConn)], [("a1", demoConn)], 1⟩⟩ ∧
    Storage.removeConnByUfrag ⟨[(⟨"", false⟩, demoConn)], [("a1", demoConn)], 1⟩ ""
      = some ⟨[], [], 1⟩ := by
  refine ⟨?_, rfl, rfl⟩
  intro m
  simp [Mux.removeConnByUfrag]

/-- One flow-table operation, as observed on the storage state. A `none`
result (panic) yields no step: the run aborts. -/
inductive Step : Storage → Storage → Prop where
  | getOrCreate (s : Storage) (u : String) (v6 : Bool) (a : Option NetAddr)
      (created : Bool) (conn : MConn) (s' : Storage)
      (h : s.getOrCreateConn u v6 a = some (created, conn, s')) : Step s s'
  | getByAddr (s : Storage) (a : String) : Step s s
  | remove (s : Storage) (u : String) (s' : Storage)
      (h : s.removeConnByUfrag u = some s') : Step s s'

/-- States reachable from the fresh storage by flow-table operations. -/
def Reachable (s : Storage) : Prop :=
  Relation.ReflTransGen Step emptyStorage s

/-- The strengthened flow-table invariant: every address binding holds a
connection whose stored remote stringifies to that key, and that connection
is bound in the ufrag map. -/
def Inv (s : Storage) : Prop :=
  ∀ a c, mlookup s.addrMap a = some c →
    (∃ na, c.addr = some na ∧ na.string = a) ∧ ∃ k, mlookup s.ufragMap k = some c

theorem inv_empty : Inv emptyStorage := by
  intro a c h
  simp [emptyStorage, mlookup] at h

theorem inv_getOrCreate {s s' : Storage} {u : String} {v6 : Bool}
    {a : Option NetAddr} {created : Bool} {conn : MConn}
    (h : s.getOrCreateConn u v6 a = some (created, conn, s')) (hinv : Inv s) :
    Inv s' := by
  cases hl : mlookup s.ufragMap ⟨u, v6⟩ with
  | some c =>
      simp only [Storage.getOrCreateConn, hl, Option.some.injEq] at h
      have hs : s = s' := congrArg (fun p => p.2.2) h
      rw [← hs]
      exact hinv
  | none =>
      cases a with
      | none => simp [Storage.getOrCreateConn, hl] at h
      | some na =>
          simp only [Storage.getOrCreateConn, hl, Option.some.injEq,
            Prod.mk.injEq] at h
          obtain ⟨-, -, hs'⟩ := h
          intro x c hx
          rw [← hs'] at hx
          simp only at hx
          rw [mlookup_minsert] at hx
          by_cases hxa : x = na.string
          · rw [if_pos hxa] at hx
            refine ⟨⟨na, by rw [← Option.some.inj hx], hxa.symm⟩,
              ⟨⟨u, v6⟩, ?_⟩⟩
            rw [← hs']
            simp only
            rw [mlookup_minsert, if_pos rfl, ← Option.some.inj hx]
          · rw [if_neg hxa] at hx
            obtain ⟨hna, k, hk⟩ := hinv x c hx
            refine ⟨hna, ⟨k, ?_⟩⟩
            rw [← hs']
            simp only
            rw [mlookup_minsert]
            have hkne : ¬ k = (⟨u, v6⟩ : UfragKey) := by
              intro hkk
              rw [hkk, hl] at hk
              cases hk
            rw [if_neg hkne]
            exact hk

theorem inv_removeOne {s s' : Storage} {key : UfragKey}
    (h : s.removeOne key = some s') (hinv : Inv s) : Inv s' := by
  cases hl : mlookup s.ufragMap key with
  | none =>
      simp only [Storage.removeOne, hl, Option.some.injEq] at h
      rw [← h]
      exact hinv
  | some conn =>
      cases hca : conn.addr with
      | none => simp [Storage.removeOne, hl, hca] at h
      | some na =>
          simp only [Storage.removeOne, hl, hca, Option.some.injEq] at h
          intro x c hx
          rw [← h] at hx
          simp only [Storage.getConnByAddr] at hx
          rw [mlookup_merase] at hx
          by_cases hxa : x = na.string
          · rw [if_pos hxa] at hx
            cases hx
          · rw [if_neg hxa] at hx
            obtain ⟨hna, k, hk⟩ := hinv x c hx
            refine ⟨hna, ⟨k, ?_⟩⟩
            rw [← h]
            simp only
            rw [mlookup_merase]
            have hkne : ¬ k = key := by
              intro hkk
              rw [hkk, hl] at hk
              have hcc : c = conn := (Option.some.inj hk).symm
              obtain ⟨na', hna', hsna'⟩ := hna
              rw [hcc, hca] at hna'
              exact hxa (hsna' ▸ congrArg NetAddr.string (Option.some.inj hna') ▸ rfl)
            rw [if_neg hkne]
            exact hk

theorem inv_remove {s s' : Storage} {u : String}
    (h : s.removeConnByUfrag u = some s') (hinv : Inv s) : Inv s' := by
  simp only [Storage.removeConnByUfrag, Option.bind_eq_bind] at h
  cases h1 : s.removeOne ⟨u, true⟩ with
  | none => rw [h1] at h; cases h
  | some s1 =>
      rw [h1] at h
      simp only [Option.some_bind] at h
      exact inv_removeOne h (inv_removeOne h1 hinv)

theorem inv_step {s s' : Storage} (h : Step s s') (hinv : Inv s) : Inv s' := by
  cases h with
  | getOrCreate _ _ _ _ _ _ hop => exact inv_getOrCreate hop hinv
  | getByAddr _ => exact hinv
  | remove _ _ hop => exact inv_remove hop hinv

/-- C6: in every flow-table state reachable by `GetOrCreateConn`,
`GetConnByAddr` and `RemoveConnByUfrag`, every connection bound in the
address map is also bound in the ufrag map under some key. -/
theorem claim_C6_addrMap_subset_ufragMap (s : Storage) (h : Reachable s) :
    ∀ a c, s.getConnByAddr a = some c → ∃ k, mlookup s.ufragMap k = some c := by
  have hinv : Inv s := by
    induction h with
    | refl => exact inv_empty
    | tail _ hstep ih => exact inv_step hstep ih
  intro a c hx
  exact (hinv a c hx).2

theorem claim_C6_witness :
    ∃ k, mlookup demoS1.ufragMap k = some demoConn :=
  claim_C6_addrMap_subset_ufragMap demoS1
    (Relation.ReflTransGen.single
      (Step.getOrCreate emptyStorage "u" false (some (.udp false "a1"))
        true demoConn demoS1 rfl))
    "a1" demoConn rfl

end UdpMux

namespace DialWorker

/-!
Embedding of the dial worker (`p2p/net/swarm/dial_worker.go`). The worker
loop is single-threaded: its state is only touched while handling one of the
three select arms (request channel, dial timer, result channel). We model
one arm-handling as a deterministic step on the worker state, with the
results of the collaborator calls (`bestAcceptableConnToPeer`,
`addrsForDial`, the ranker, `dialNextAddr`, `addConn`, the remote-peer
check) carried as inputs of the event, since they are external to the
worker. Responses written to a request's `resch` channel are logged as
`(request id, response)` pairs. Multiaddresses are their canonical byte
strings (Go keys maps by `string(addr.Bytes())`).
-/

open DialQueue (AddrDelay dqAdd dqNextBatch)
open UdpMux (mlookup merase minsert mlookup_merase mlookup_minsert)

abbrev Addr := String
abbrev ReqId := Nat

/-- A `*Conn` produced by the swarm. -/
structure Conn where
  id : Nat
deriving DecidableEq, Repr

/-- Errors the worker handles. `dialBackoff` is `ErrDialBackoff`;
`allDialsFailed` is `ErrAllDialsFailed`; `peerMismatch` is the
`fmt.Errorf` of the defensive check in `handleSuccess`; `transport n` is any
other error returned by a collaborator. -/
inductive Err where
  | dialBackoff
  | allDialsFailed
  | peerMismatch
  | transport (n : Nat)
deriving DecidableEq, Repr

/-- `*DialError` (the accumulating multi-error; the `Peer` field carries no
information here). `recordErr` appends to `dialErrors`. -/
structure DialError where
  dialErrors : List (Addr × Err)
  cause : Option Err
deriving DecidableEq, Repr

/-- The error slot of a `dialResponse`: either a plain error (as returned by
`bestAcceptableConnToPeer`) or a `*DialError`. -/
inductive RespErr where
  | plain (e : Err)
  | dial (d : DialError)
deriving DecidableEq, Repr

/-- `dialResponse` (dial_worker.go:35-41). -/
structure DialResponse where
  conn : Option Conn
  err : Option RespErr
deriving DecidableEq, Repr

/-- `pendRequest` (dial_worker.go:43-54): the request id stands for its
response channel, `errs` is the accumulated `err.DialErrors`, `addrs` the
set of addresses still pending (a Go map; modelled as a duplicate-free
list). -/
structure PendRequest where
  id : ReqId
  errs : List (Addr × Err)
  addrs : List Addr
deriving DecidableEq, Repr

/-- `addrDial` (dial_worker.go:56-74), reduced to the fields the control
flow reads: `simConnect` is `network.GetSimultaneousConnect(ad.ctx)` of the
dial context (timestamps carry no control flow). -/
structure AddrDial where
  addr : Addr
  simConnect : Bool
  conn : Option Conn
  err : Option Err
  dialed : Bool
deriving DecidableEq, Repr

/-- The mutable state of `dialWorker` (dial_worker.go:78-102) as seen by the
loop, plus the log of responses written to request channels. -/
structure Worker where
  pending : List PendRequest
  trackedDials : List (Addr × AddrDial)
  dq : List AddrDelay
  connected : Bool
  dialsInFlight : Int
  responses : List (ReqId × DialResponse)
deriving Repr

def initWorker : Worker := ⟨[], [], [], false, 0, []⟩

/-- Pointer-style in-place update of one tracked dial. -/
def mupdate {κ β : Type} [DecidableEq κ] (m : List (κ × β)) (k : κ) (f : β → β) :
    List (κ × β) :=
  m.map (fun e => if e.1 = k then (e.1, f e.2) else e)

theorem mlookup_mupdate {κ β : Type} [DecidableEq κ] (m : List (κ × β)) (k k' : κ)
    (f : β → β) :
    mlookup (mupdate m k f) k' =
      if k' = k then (mlookup m k).map f else mlookup m k' := by
  induction m with
  | nil => simp [mupdate, mlookup]
  | cons e rest ih =>
      by_cases hek : e.1 = k
      · by_cases hk : k' = k
        · simp [mupdate, mlookup, hek, hk, ih]
        · have h2 : ¬ e.1 = k' := by rw [hek]; exact fun h => hk h.symm
          simp only [mupdate, List.map_cons, if_pos hek, mlookup, h2, if_false,
            if_neg hk] at ih ⊢
          exact ih
      · by_cases hek' : e.1 = k'
        · have hk : ¬ k' = k := fun h => hek (h ▸ hek')
          simp [mupdate, mlookup, hek, hek', hk]
        · simp only [mupdate, List.map_cons, if_neg hek, mlookup, hek', if_false,
            if_neg hek'] at ih ⊢
          rw [ih]

/-- The response sent by `dispatchError` when a pending request's address
set empties (dial_worker.go:397-409): the last-chance
`bestAcceptableConnToPeer` probe result if any, otherwise the accumulated
`DialError` with `Cause = ErrAllDialsFailed`. `errs` is the multi-error
including the final recorded one. -/
def completionResp (probe : ReqId → Option Conn) (rid : ReqId)
    (errs : List (Addr × Err)) : DialResponse :=
  match probe rid with
  | some c => ⟨some c, none⟩
  | none => ⟨none, some (.dial ⟨errs, some .allDialsFailed⟩)⟩

/-- The pending-request walk of `dispatchError` (dial_worker.go:392-411):
for each pending request containing the address, record the error and drop
the address; complete and remove the request if its set emptied. Returns the
surviving pending list and the responses sent. -/
def dispatchPend (a : Addr) (e : Err) (probe : ReqId → Option Conn) :
    List PendRequest → List PendRequest × List (ReqId × DialResponse)
  | [] => ([], [])
  | pr :: rest =>
      let (ps, rs) := dispatchPend a e probe rest
      if a ∈ pr.addrs then
        let errs' := pr.errs ++ [(a, e)]
        if pr.addrs.erase a = [] then
          (ps, (pr.id, completionResp probe pr.id errs') :: rs)
        else
          ({ pr with errs := errs', addrs := pr.addrs.erase a } :: ps, rs)
      else
        (pr :: ps, rs)

/-- `dialWorker.dispatchError` (dial_worker.go:390-420): record the error on
the tracked dial, update every pending request, and delete the tracked dial
iff the error is the backoff sentinel. -/
def dispatchError (w : Worker) (a : Addr) (e : Err) (probe : ReqId → Option Conn) :
    Worker :=
  let tracked := mupdate w.trackedDials a (fun ad => { ad with err := some e })
  let pr := dispatchPend a e probe w.pending
  { w with
    pending := pr.1
    trackedDials := if e = .dialBackoff then merase tracked a else tracked
    responses := w.responses ++ pr.2 }

/-- The pending-request walk of `handleSuccess` (dial_worker.go:357-362):
every pending request containing the address receives the connection and is
removed. -/
def successPend (a : Addr) (c : Conn) :
    List PendRequest → List PendRequest × List (ReqId × DialResponse)
  | [] => ([], [])
  | pr :: rest =>
      let (ps, rs) := successPend a c rest
      if a ∈ pr.addrs then
        (ps, (pr.id, ⟨some c, none⟩) :: rs)
      else
        (pr :: ps, rs)

/-- `dialWorker.handleSuccess` (dial_worker.go:328-370). `peerOk` is the
remote-peer identity check; `addOk` is the error of `addConn` (nil on
success); both failure paths route through `dispatchError`. -/
def handleSuccess (w : Worker) (a : Addr) (c : Conn) (peerOk : Bool)
    (addOk : Option Err) (probe : ReqId → Option Conn) : Worker :=
  if peerOk = false then
    dispatchError w a .peerMismatch probe
  else
    match addOk with
    | some e => dispatchError w a e probe
    | none =>
        let pr := successPend a c w.pending
        { w with
          trackedDials := mupdate w.trackedDials a (fun ad => { ad with conn := some c })
          pending := pr.1
          responses := w.responses ++ pr.2
          connected := true }

/-- The loop body of `addNewRequest` over the ranked addresses
(dial_worker.go:281-316), threading the pending request being built, the
tracked dials and the dial queue. -/
def anrLoop (simConnect : Bool) :
    List AddrDelay → PendRequest → List (Addr × AddrDial) → List AddrDelay →
    PendRequest × List (Addr × AddrDial) × List AddrDelay
  | [], pr, td, dq => (pr, td, dq)
  | ad :: rest, pr, td, dq =>
      match mlookup td ad.Addr with
      | none =>
          anrLoop simConnect rest pr
            (minsert td ad.Addr ⟨ad.Addr, simConnect, none, none, false⟩)
            (dqAdd dq ad)
      | some adl =>
          match adl.err with
          | some e =>
              anrLoop simConnect rest
                { pr with errs := pr.errs ++ [(adl.addr, e)]
                          addrs := pr.addrs.erase adl.addr }
                td dq
          | none =>
              if adl.dialed = false ∧ simConnect = true ∧ adl.simConnect = false then
                anrLoop simConnect rest pr
                  (mupdate td ad.Addr (fun x => { x with simConnect := true }))
                  (dqAdd dq ⟨adl.addr, ad.Delay⟩)
              else
                anrLoop simConnect rest pr td dq

/-- `dialWorker.addNewRequest` (dial_worker.go:266-326). `ranked` is the
output of `rankAddrs` (a collaborator), `addrErrs` the pre-flight errors of
`addrsForDial`. The pending request's address set starts as the ranked
addresses; if it drains during the loop the request is answered immediately
with `ErrAllDialsFailed`, otherwise it joins the pending set. -/
def addNewRequest (w : Worker) (rid : ReqId) (simConnect : Bool)
    (ranked : List AddrDelay) (addrErrs : List (Addr × Err)) : Worker :=
  let pr0 : PendRequest := ⟨rid, addrErrs, (ranked.map AddrDelay.Addr).dedup⟩
  let res := anrLoop simConnect ranked pr0 w.trackedDials w.dq
  if res.1.addrs = [] then
    { w with
      trackedDials := res.2.1
      dq := res.2.2
      responses := w.responses ++
        [(rid, ⟨none, some (.dial ⟨res.1.errs, some .allDialsFailed⟩)⟩)] }
  else
    { w with
      trackedDials := res.2.1
      dq := res.2.2
      pending := w.pending ++ [res.1] }

/-- The collaborator results consumed while handling one incoming request
(dial_worker.go:160-194): the `bestAcceptableConnToPeer` result, the
`addrsForDial` results, and the ranker output. -/
structure ReqEvent where
  rid : ReqId
  simConnect : Bool
  bestConn : Option Conn
  bestErr : Option Err
  addrs : List Addr
  addrErrs : List (Addr × Err)
  fatal : Option Err
  ranked : List AddrDelay

/-- The check of dial_worker.go:183-191: the first requested address whose
tracked dial already holds a connection. -/
def findSuccessConn (w : Worker) : List Addr → Option Conn
  | [] => none
  | a :: rest =>
      match mlookup w.trackedDials a with
      | some ad =>
          match ad.conn with
          | some c => some c
          | none => findSuccessConn w rest
      | none => findSuccessConn w rest

def respond (w : Worker) (rid : ReqId) (resp : DialResponse) : Worker :=
  { w with responses := w.responses ++ [(rid, resp)] }

/-- The request arm of the worker loop (dial_worker.go:160-194). -/
def procRequest (w : Worker) (r : ReqEvent) : Worker :=
  if r.bestConn.isSome ∨ r.bestErr.isSome then
    respond w r.rid ⟨r.bestConn, r.bestErr.map .plain⟩
  else
    match r.fatal with
    | some e => respond w r.rid ⟨none, some (.dial ⟨r.addrErrs, some e⟩)⟩
    | none =>
        match findSuccessConn w r.addrs with
        | some c => respond w r.rid ⟨some c, none⟩
        | none => addNewRequest w r.rid r.simConnect r.ranked r.addrErrs

/-- The per-batch-entry body of the timer arm (dial_worker.go:203-220):
untracked entries are skipped (logged as a bug); otherwise the dial is
marked as triggered and `dialNextAddr` runs, whose immediate error (e.g.
backoff) is dispatched, and whose success makes the dial in-flight. -/
def timerLoop (outcomes : Addr → Option Err) (probe : ReqId → Option Conn) :
    List AddrDelay → Worker → Worker
  | [], w => w
  | ad :: rest, w =>
      let w' :=
        match mlookup w.trackedDials ad.Addr with
        | none => w
        | some _ =>
            let w1 := { w with
              trackedDials := mupdate w.trackedDials ad.Addr
                (fun x => { x with dialed := true }) }
            match outcomes ad.Addr with
            | some e => dispatchError w1 ad.Addr e probe
            | none => { w1 with dialsInFlight := w1.dialsInFlight + 1 }
      timerLoop outcomes probe rest w'

/-- The timer arm (dial_worker.go:196-223): pop the next batch and dial it. -/
def procTimer (w : Worker) (outcomes : Addr → Option Err)
    (probe : ReqId → Option Conn) : Worker :=
  timerLoop outcomes probe (dqNextBatch w.dq).1 { w with dq := (dqNextBatch w.dq).2 }

/-- A `DialStarted` result (dial_worker.go:230-246): an untracked address
only decrements the in-flight count defensively; a tracked one stamps its
start time (no control-flow effect). -/
def procStarted (w : Worker) (a : Addr) : Worker :=
  match mlookup w.trackedDials a with
  | none => { w with dialsInFlight := w.dialsInFlight - 1 }
  | some _ => w

/-- A successful terminal dial result (dial_worker.go:225-259 with
`handleSuccess`). -/
def procSucceeded (w : Worker) (a : Addr) (c : Conn) (peerOk : Bool)
    (addOk : Option Err) (probe : ReqId → Option Conn) : Worker :=
  match mlookup w.trackedDials a with
  | none => { w with dialsInFlight := w.dialsInFlight - 1 }
  | some _ =>
      handleSuccess { w with dialsInFlight := w.dialsInFlight - 1 } a c peerOk addOk probe

/-- A failed terminal dial result (dial_worker.go:225-259 with
`handleError`; the backoff table and black-hole detector are collaborators
without worker-state effect, so `handleError` reduces to `dispatchError`). -/
def procFailed (w : Worker) (a : Addr) (e : Err) (probe : ReqId → Option Conn) :
    Worker :=
  match mlookup w.trackedDials a with
  | none => { w with dialsInFlight := w.dialsInFlight - 1 }
  | some _ =>
      dispatchError { w with dialsInFlight := w.dialsInFlight - 1 } a e probe

/-- One handled arm of the worker loop select (dial_worker.go:159-260),
with the collaborator results as event payload. -/
inductive Event where
  | request (r : ReqEvent)
  | timerFire (outcomes : Addr → Option Err) (probe : ReqId → Option Conn)
  | dialStarted (a : Addr)
  | dialSucceeded (a : Addr) (c : Conn) (peerOk : Bool) (addOk : Option Err)
      (probe : ReqId → Option Conn)
  | dialFailed (a : Addr) (e : Err) (probe : ReqId → Option Conn)

def procEvent (w : Worker) : Event → Worker
  | .request r => procRequest w r
  | .timerFire outcomes probe => procTimer w outcomes probe
  | .dialStarted a => procStarted w a
  | .dialSucceeded a c peerOk addOk probe => procSucceeded w a c peerOk addOk probe
  | .dialFailed a e probe => procFailed w a e probe

def runFrom (w : Worker) (es : List Event) : Worker := es.foldl procEvent w

def run (es : List Event) : Worker := runFrom initWorker es

/-! #### Counting responses and pending requests per request id -/

def pcount (r : ReqId) (l : List PendRequest) : Nat :=
  (l.filter (fun pr => pr.id == r)).length

def rcount (r : ReqId) (l : List (ReqId × DialResponse)) : Nat :=
  (l.filter (fun p => p.1 == r)).length

def respCount (w : Worker) (r : ReqId) : Nat := rcount r w.responses

def pendCount (w : Worker) (r : ReqId) : Nat := pcount r w.pending

theorem pcount_nil (r : ReqId) : pcount r [] = 0 := rfl

theorem pcount_cons (r : ReqId) (pr : PendRequest) (l : List PendRequest) :
    pcount r (pr :: l) = (if pr.id = r then 1 else 0) + pcount r l := by
  by_cases h : pr.id = r
  · simp [pcount, List.filter_cons, h, Nat.add_comm]
  · simp [pcount, List.filter_cons, h]

theorem rcount_cons (r : ReqId) (p : ReqId × DialResponse)
    (l : List (ReqId × DialResponse)) :
    rcount r (p :: l) = (if p.1 = r then 1 else 0) + rcount r l := by
  by_cases h : p.1 = r
  · simp [rcount, List.filter_cons, h, Nat.add_comm]
  · simp [rcount, List.filter_cons, h]

theorem rcount_append (r : ReqId) (l₁ l₂ : List (ReqId × DialResponse)) :
    rcount r (l₁ ++ l₂) = rcount r l₁ + rcount r l₂ := by
  simp [rcount, List.filter_append]

theorem pcount_append (r : ReqId) (l₁ l₂ : List PendRequest) :
    pcount r (l₁ ++ l₂) = pcount r l₁ + pcount r l₂ := by
  simp [pcount, List.filter_append]

/-! #### Behaviour of the `dispatchError` pending walk -/

theorem dispatchPend_balance (a : Addr) (e : Err) (probe : ReqId → Option Conn)
    (l : List PendRequest) (r : ReqId) :
    pcount r (dispatchPend a e probe l).1 + rcount r (dispatchPend a e probe l).2
      = pcount r l := by
  induction l with
  | nil => rfl
  | cons pr rest ih =>
      by_cases ha : a ∈ pr.addrs
      · by_cases hempty : pr.addrs.erase a = []
        · simp only [dispatchPend, if_pos ha, if_pos hempty, rcount_cons, pcount_cons]
          by_cases hid : pr.id = r <;> simp [hid] <;> omega
        · simp only [dispatchPend, if_pos ha, if_neg hempty, pcount_cons]
          by_cases hid : pr.id = r <;> simp [hid] <;> omega
      · simp only [dispatchPend, if_neg ha, pcount_cons]
        by_cases hid : pr.id = r <;> simp [hid] <;> omega

theorem dispatchPend_pending_shape (a : Addr) (e : Err)
    (probe : ReqId → Option Conn) (l : List PendRequest) :
    ∀ q ∈ (dispatchPend a e probe l).1,
      (q ∈ l ∧ a ∉ q.addrs) ∨
      ∃ pr ∈ l, a ∈ pr.addrs ∧ pr.addrs.erase a ≠ [] ∧
        q = { pr with errs := pr.errs ++ [(a, e)], addrs := pr.addrs.erase a } := by
  induction l with
  | nil => intro q hq; cases hq
  | cons pr rest ih =>
      intro q hq
      simp only [dispatchPend] at hq
      by_cases ha : a ∈ pr.addrs
      · rw [if_pos ha] at hq
        by_cases hempty : pr.addrs.erase a = []
        · rw [if_pos hempty] at hq
          rcases ih q hq with ⟨hql, hqa⟩ | ⟨pr', hpr', h1, h2, h3⟩
          · exact Or.inl ⟨List.mem_cons_of_mem _ hql, hqa⟩
          · exact Or.inr ⟨pr', List.mem_cons_of_mem _ hpr', h1, h2, h3⟩
        · rw [if_neg hempty] at hq
          rcases List.mem_cons.mp hq with rfl | hq
          · exact Or.inr ⟨pr, List.mem_cons_self _ _, ha, hempty, rfl⟩
          · rcases ih q hq with ⟨hql, hqa⟩ | ⟨pr', hpr', h1, h2, h3⟩
            · exact Or.inl ⟨List.mem_cons_of_mem _ hql, hqa⟩
            · exact Or.inr ⟨pr', List.mem_cons_of_mem _ hpr', h1, h2, h3⟩
      · rw [if_neg ha] at hq
        rcases List.mem_cons.mp hq with rfl | hq
        · exact Or.inl ⟨List.mem_cons_self _ _, ha⟩
        · rcases ih q hq with ⟨hql, hqa⟩ | ⟨pr', hpr', h1, h2, h3⟩
          · exact Or.inl ⟨List.mem_cons_of_mem _ hql, hqa⟩
          · exact Or.inr ⟨pr', List.mem_cons_of_mem _ hpr', h1, h2, h3⟩

theorem dispatchPend_resp_shape (a : Addr) (e : Err)
    (probe : ReqId → Option Conn) (l : List PendRequest) :
    ∀ p ∈ (dispatchPend a e probe l).2,
      ∃ pr ∈ l, a ∈ pr.addrs ∧ pr.addrs.erase a = [] ∧
        p = (pr.id, completionResp probe pr.id (pr.errs ++ [(a, e)])) := by
  induction l with
  | nil => intro p hp; cases hp
  | cons pr rest ih =>
      intro p hp
      simp only [dispatchPend] at hp
      by_cases ha : a ∈ pr.addrs
      · rw [if_pos ha] at hp
        by_cases hempty : pr.addrs.erase a = []
        · rw [if_pos hempty] at hp
          rcases List.mem_cons.mp hp with rfl | hp
          · exact ⟨pr, List.mem_cons_self _ _, ha, hempty, rfl⟩
          · obtain ⟨pr', hpr', h1, h2, h3⟩ := ih p hp
            exact ⟨pr', List.mem_cons_of_mem _ hpr', h1, h2, h3⟩
        · rw [if_neg hempty] at hp
          obtain ⟨pr', hpr', h1, h2, h3⟩ := ih p hp
          exact ⟨pr', List.mem_cons_of_mem _ hpr', h1, h2, h3⟩
      · rw [if_neg ha] at hp
        obtain ⟨pr', hpr', h1, h2, h3⟩ := ih p hp
        exact ⟨pr', List.mem_cons_of_mem _ hpr', h1, h2, h3⟩

theorem dispatchPend_mem_untouched (a : Addr) (e : Err)
    (probe : ReqId → Option Conn) (l : List PendRequest) :
    ∀ pr ∈ l, a ∉ pr.addrs → pr ∈ (dispatchPend a e probe l).1 := by
  induction l with
  | nil => intro pr hpr; cases hpr
  | cons q rest ih =>
      intro pr hpr ha
      simp only [dispatchPend]
      rcases List.mem_cons.mp hpr with rfl | hpr
      · rw [if_neg ha]
        exact List.mem_cons_self _ _
      · by_cases hq : a ∈ q.addrs
        · rw [if_pos hq]
          by_cases hempty : q.addrs.erase a = []
          · rw [if_pos hempty]
            exact ih pr hpr ha
          · rw [if_neg hempty]
            exact List.mem_cons_of_mem _ (ih pr hpr ha)
        · rw [if_neg hq]
          exact List.mem_cons_of_mem _ (ih pr hpr ha)

theorem dispatchPend_mem_shrunk (a : Addr) (e : Err)
    (probe : ReqId → Option Conn) (l : List PendRequest) :
    ∀ pr ∈ l, a ∈ pr.addrs → pr.addrs.erase a ≠ [] →
      ({ pr with errs := pr.errs ++ [(a, e)], addrs := pr.addrs.erase a } : PendRequest)
        ∈ (dispatchPend a e probe l).1 := by
  induction l with
  | nil => intro pr hpr; cases hpr
  | cons q rest ih =>
      intro pr hpr ha hne
      simp only [dispatchPend]
      rcases List.mem_cons.mp hpr with rfl | hpr
      · rw [if_pos ha, if_neg hne]
        exact List.mem_cons_self _ _
      · by_cases hq : a ∈ q.addrs
        · rw [if_pos hq]
          by_cases hempty : q.addrs.erase a = []
          · rw [if_pos hempty]
            exact ih pr hpr ha hne
          · rw [if_neg hempty]
            exact List.mem_cons_of_mem _ (ih pr hpr ha hne)
        · rw [if_neg hq]
          exact List.mem_cons_of_mem _ (ih pr hpr ha hne)

theorem dispatchPend_mem_completed (a : Addr) (e : Err)
    (probe : ReqId → Option Conn) (l : List PendRequest) :
    ∀ pr ∈ l, a ∈ pr.addrs → pr.addrs.erase a = [] →
      (pr.id, completionResp probe pr.id (pr.errs ++ [(a, e)]))
        ∈ (dispatchPend a e probe l).2 := by
  induction l with
  | nil => intro pr hpr; cases hpr
  | cons q rest ih =>
      intro pr hpr ha hemp
      simp only [dispatchPend]
      rcases List.mem_cons.mp hpr with rfl | hpr
      · rw [if_pos ha, if_pos hemp]
        exact List.mem_cons_self _ _
      · by_cases hq : a ∈ q.addrs
        · rw [if_pos hq]
          by_cases hempty : q.addrs.erase a = []
          · rw [if_pos hempty]
            exact List.mem_cons_of_mem _ (ih pr hpr ha hemp)
          · rw [if_neg hempty]
            exact ih pr hpr ha hemp
        · rw [if_neg hq]
          exact ih pr hpr ha hemp

/-- C4: when `dispatchError` runs for an address, every pending request
containing that address gets the error appended to its multi-error and the
address removed; it is completed (and removed from the pending set) exactly
when its address set becomes empty, and then receives the last-chance probe
connection if any, otherwise the accumulated `DialError` with
`Cause = ErrAllDialsFailed`; a pending request with remaining addresses is
never completed by a per-address error. -/
theorem claim_C4_dispatchError_per_request (w : Worker) (a : Addr) (e : Err)
    (probe : ReqId → Option Conn) :
    (dispatchError w a e probe).pending = (dispatchPend a e probe w.pending).1 ∧
    (dispatchError w a e probe).responses
      = w.responses ++ (dispatchPend a e probe w.pending).2 ∧
    (∀ pr ∈ w.pending, a ∉ pr.addrs → pr ∈ (dispatchError w a e probe).pending) ∧
    (∀ pr ∈ w.pending, a ∈ pr.addrs → pr.addrs.erase a ≠ [] →
       ({ pr with errs := pr.errs ++ [(a, e)], addrs := pr.addrs.erase a } : PendRequest)
         ∈ (dispatchError w a e probe).pending) ∧
    (∀ pr ∈ w.pending, a ∈ pr.addrs → pr.addrs.erase a = [] →
       (pr.id, completionResp probe pr.id (pr.errs ++ [(a, e)]))
         ∈ (dispatchError w a e probe).responses) ∧
    (∀ p ∈ (dispatchPend a e probe w.pending).2,
       ∃ pr ∈ w.pending, p.1 = pr.id ∧ a ∈ pr.addrs ∧ pr.addrs.erase a = []) := by
  refine ⟨rfl, rfl, ?_, ?_, ?_, ?_⟩
  · exact dispatchPend_mem_untouched a e probe w.pending
  · exact dispatchPend_mem_shrunk a e probe w.pending
  · intro pr hpr ha hemp
    exact List.mem_append_right _ (dispatchPend_mem_completed a e probe w.pending pr hpr ha hemp)
  · intro p hp
    obtain ⟨pr, hpr, h1, h2, h3⟩ := dispatchPend_resp_shape a e probe w.pending p hp
    exact ⟨pr, hpr, by rw [h3], h1, h2⟩

theorem claim_C4_witness :
    ({ id := 7, errs := [("y", .transport 0)], addrs := ["x"] } : PendRequest)
      ∈ (dispatchError
          { initWorker with pending := [⟨7, [], ["x", "y"]⟩] } "y" (.transport 0)
          (fun _ => none)).pending := by
  have h := (claim_C4_dispatchError_per_request
    { initWorker with pending := [⟨7, [], ["x", "y"]⟩] } "y" (.transport 0)
    (fun _ => none)).2.2.2.1 ⟨7, [], ["x", "y"]⟩ (List.mem_cons_self _ _)
    (by decide) (by decide)
  simpa using h

/-! #### Effects of the worker operations on the tracked dials -/

theorem dispatchError_tracked_at (w : Worker) (a : Addr) (e : Err)
    (probe : ReqId → Option Conn) :
    mlookup (dispatchError w a e probe).trackedDials a =
      if e = .dialBackoff then none
      else (mlookup w.trackedDials a).map (fun ad => { ad with err := some e }) := by
  by_cases hb : e = .dialBackoff
  · simp only [dispatchError, if_pos hb]
    rw [mlookup_merase, if_pos rfl]
  · simp only [dispatchError, if_neg hb]
    rw [mlookup_mupdate, if_pos rfl]

theorem dispatchError_tracked_other (w : Worker) (a : Addr) (e : Err)
    (probe : ReqId → Option Conn) (b : Addr) (hne : ¬ b = a) :
    mlookup (dispatchError w a e probe).trackedDials b = mlookup w.trackedDials b := by
  by_cases hb : e = .dialBackoff
  · simp only [dispatchError, if_pos hb]
    rw [mlookup_merase, if_neg hne, mlookup_mupdate, if_neg hne]
  · simp only [dispatchError, if_neg hb]
    rw [mlookup_mupdate, if_neg hne]

theorem isSome_minsert {td : List (Addr × AddrDial)} {b k : Addr} {v : AddrDial}
    (h : (mlookup td b).isSome = true) : (mlookup (minsert td k v) b).isSome = true := by
  rw [show minsert td k v = (k, v) :: merase td k from rfl]
  by_cases hk : k = b
  · simp [mlookup, hk]
  · simp only [mlookup, if_neg hk]
    rw [mlookup_merase, if_neg (fun hh => hk hh.symm)]
    exact h

theorem isSome_mupdate {td : List (Addr × AddrDial)} {b k : Addr} {f : AddrDial → AddrDial}
    (h : (mlookup td b).isSome = true) : (mlookup (mupdate td k f) b).isSome = true := by
  rw [mlookup_mupdate]
  by_cases hk : b = k
  · rw [if_pos hk]
    rw [hk] at h
    cases hmk : mlookup td k with
    | none => rw [hmk] at h; cases h
    | some v => simp [hmk]
  · rw [if_neg hk]
    exact h

theorem anrLoop_cons_new {sc : Bool} {ad : AddrDelay} {rest : List AddrDelay}
    {pr : PendRequest} {td : List (Addr × AddrDial)} {dq : List AddrDelay}
    (h : mlookup td ad.Addr = none) :
    anrLoop sc (ad :: rest) pr td dq =
      anrLoop sc rest pr (minsert td ad.Addr ⟨ad.Addr, sc, none, none, false⟩)
        (dqAdd dq ad) := by
  simp only [anrLoop, h]

theorem anrLoop_cons_errored {sc : Bool} {ad : AddrDelay} {rest : List AddrDelay}
    {pr : PendRequest} {td : List (Addr × AddrDial)} {dq : List AddrDelay}
    {adl : AddrDial} {e : Err} (h : mlookup td ad.Addr = some adl)
    (he : adl.err = some e) :
    anrLoop sc (ad :: rest) pr td dq =
      anrLoop sc rest
        { pr with errs := pr.errs ++ [(adl.addr, e)], addrs := pr.addrs.erase adl.addr }
        td dq := by
  simp only [anrLoop, h, he]

theorem anrLoop_cons_upgrade {sc : Bool} {ad : AddrDelay} {rest : List AddrDelay}
    {pr : PendRequest} {td : List (Addr × AddrDial)} {dq : List AddrDelay}
    {adl : AddrDial} (h : mlookup td ad.Addr = some adl) (he : adl.err = none)
    (hc : adl.dialed = false ∧ sc = true ∧ adl.simConnect = false) :
    anrLoop sc (ad :: rest) pr td dq =
      anrLoop sc rest pr (mupdate td ad.Addr (fun x => { x with simConnect := true }))
        (dqAdd dq ⟨adl.addr, ad.Delay⟩) := by
  simp only [anrLoop, h, he, if_pos hc]

theorem anrLoop_cons_skip {sc : Bool} {ad : AddrDelay} {rest : List AddrDelay}
    {pr : PendRequest} {td : List (Addr × AddrDial)} {dq : List AddrDelay}
    {adl : AddrDial} (h : mlookup td ad.Addr = some adl) (he : adl.err = none)
    (hc : ¬ (adl.dialed = false ∧ sc = true ∧ adl.simConnect = false)) :
    anrLoop sc (ad :: rest) pr td dq = anrLoop sc rest pr td dq := by
  simp only [anrLoop, h, he, if_neg hc]

theorem anr_tracked_mono (sc : Bool) (l : List AddrDelay) (pr : PendRequest)
    (td : List (Addr × AddrDial)) (dq : List AddrDelay) (b : Addr)
    (h : (mlookup td b).isSome = true) :
    (mlookup (anrLoop sc l pr td dq).2.1 b).isSome = true := by
  induction l generalizing pr td dq with
  | nil => exact h
  | cons ad rest ih =>
      cases hl : mlookup td ad.Addr with
      | none =>
          rw [anrLoop_cons_new hl]
          exact ih _ _ _ (isSome_minsert h)
      | some adl =>
          cases he : adl.err with
          | some e =>
              rw [anrLoop_cons_errored hl he]
              exact ih _ _ _ h
          | none =>
              by_cases hcond : adl.dialed = false ∧ sc = true ∧ adl.simConnect = false
              · rw [anrLoop_cons_upgrade hl he hcond]
                exact ih _ _ _ (isSome_mupdate h)
              · rw [anrLoop_cons_skip hl he hcond]
                exact ih _ _ _ h

theorem addNewRequest_tracked (w : Worker) (rid : ReqId) (sc : Bool)
    (ranked : List AddrDelay) (addrErrs : List (Addr × Err)) :
    (addNewRequest w rid sc ranked addrErrs).trackedDials =
      (anrLoop sc ranked ⟨rid, addrErrs, (ranked.map AddrDelay.Addr).dedup⟩
        w.trackedDials w.dq).2.1 := by
  simp only [addNewRequest]
  split <;> rfl

theorem timerLoop_cons_untracked {outcomes : Addr → Option Err}
    {probe : ReqId → Option Conn} {ad : AddrDelay} {rest : List AddrDelay}
    {w : Worker} (hl : mlookup w.trackedDials ad.Addr = none) :
    timerLoop outcomes probe (ad :: rest) w = timerLoop outcomes probe rest w := by
  simp only [timerLoop, hl]

theorem timerLoop_cons_err {outcomes : Addr → Option Err}
    {probe : ReqId → Option Conn} {ad : AddrDelay} {rest : List AddrDelay}
    {w : Worker} {adl : AddrDial} {e : Err}
    (hl : mlookup w.trackedDials ad.Addr = some adl)
    (ho : outcomes ad.Addr = some e) :
    timerLoop outcomes probe (ad :: rest) w =
      timerLoop outcomes probe rest
        (dispatchError
          { w with trackedDials :=
              (mupdate w.trackedDials ad.Addr (fun x => { x with dialed := true })) }
          ad.Addr e probe) := by
  simp only [timerLoop, hl, ho]

theorem timerLoop_cons_ok {outcomes : Addr → Option Err}
    {probe : ReqId → Option Conn} {ad : AddrDelay} {rest : List AddrDelay}
    {w : Worker} {adl : AddrDial}
    (hl : mlookup w.trackedDials ad.Addr = some adl)
    (ho : outcomes ad.Addr = none) :
    timerLoop outcomes probe (ad :: rest) w =
      timerLoop outcomes probe rest
        { w with
          trackedDials :=
            (mupdate w.trackedDials ad.Addr (fun x => { x with dialed := true }))
          dialsInFlight := w.dialsInFlight + 1 } := by
  simp only [timerLoop, hl, ho]

theorem procStarted_untracked {w : Worker} {a : Addr}
    (hl : mlookup w.trackedDials a = none) :
    procStarted w a = { w with dialsInFlight := w.dialsInFlight - 1 } := by
  simp only [procStarted, hl]

theorem procStarted_tracked {w : Worker} {a : Addr} {adl : AddrDial}
    (hl : mlookup w.trackedDials a = some adl) : procStarted w a = w := by
  simp only [procStarted, hl]

theorem procFailed_untracked {w : Worker} {a : Addr} {e : Err}
    {probe : ReqId → Option Conn} (hl : mlookup w.trackedDials a = none) :
    procFailed w a e probe = { w with dialsInFlight := w.dialsInFlight - 1 } := by
  simp only [procFailed, hl]

theorem procFailed_tracked {w : Worker} {a : Addr} {e : Err}
    {probe : ReqId → Option Conn} {adl : AddrDial}
    (hl : mlookup w.trackedDials a = some adl) :
    procFailed w a e probe =
      dispatchError { w with dialsInFlight := w.dialsInFlight - 1 } a e probe := by
  simp only [procFailed, hl]

theorem procSucceeded_untracked {w : Worker} {a : Addr} {c : Conn} {peerOk : Bool}
    {addOk : Option Err} {probe : ReqId → Option Conn}
    (hl : mlookup w.trackedDials a = none) :
    procSucceeded w a c peerOk addOk probe =
      { w with dialsInFlight := w.dialsInFlight - 1 } := by
  simp only [procSucceeded, hl]

theorem procSucceeded_tracked {w : Worker} {a : Addr} {c : Conn} {peerOk : Bool}
    {addOk : Option Err} {probe : ReqId → Option Conn} {adl : AddrDial}
    (hl : mlookup w.trackedDials a = some adl) :
    procSucceeded w a c peerOk addOk probe =
      handleSuccess { w with dialsInFlight := w.dialsInFlight - 1 } a c peerOk addOk
        probe := by
  simp only [procSucceeded, hl]

theorem handleSuccess_peerFail {w : Worker} {a : Addr} {c : Conn}
    {addOk : Option Err} {probe : ReqId → Option Conn} :
    handleSuccess w a c false addOk probe = dispatchError w a .peerMismatch probe := by
  simp [handleSuccess]

theorem handleSuccess_addErr {w : Worker} {a : Addr} {c : Conn} {e : Err}
    {probe : ReqId → Option Conn} :
    handleSuccess w a c true (some e) probe = dispatchError w a e probe := by
  simp [handleSuccess]

theorem handleSuccess_ok {w : Worker} {a : Addr} {c : Conn}
    {probe : ReqId → Option Conn} :
    handleSuccess w a c true none probe =
      { w with
        trackedDials := mupdate w.trackedDials a (fun ad => { ad with conn := some c })
        pending := (successPend a c w.pending).1
        responses := w.responses ++ (successPend a c w.pending).2
        connected := true } := by
  simp [handleSuccess]

theorem procRequest_tracked_mono (w : Worker) (r : ReqEvent) (b : Addr)
    (h : (mlookup w.trackedDials b).isSome = true) :
    (mlookup (procRequest w r).trackedDials b).isSome = true := by
  unfold procRequest
  by_cases h1 : r.bestConn.isSome = true ∨ r.bestErr.isSome = true
  · rw [if_pos h1]
    exact h
  · rw [if_neg h1]
    cases hf : r.fatal with
    | some e => exact h
    | none =>
        cases hc : findSuccessConn w r.addrs with
        | some c => exact h
        | none =>
            show (mlookup (addNewRequest w r.rid r.simConnect r.ranked
              r.addrErrs).trackedDials b).isSome = true
            rw [addNewRequest_tracked]
            exact anr_tracked_mono r.simConnect r.ranked _ w.trackedDials w.dq b h

/-- The per-address error that an event hands to `dispatchError` for a
given address, read off the event payload: the immediate `dialNextAddr`
error for a timer fire, the dial error for a failed result, and the
peer-mismatch or `addConn` error for a successful result that is rejected. -/
def dispatchedErrOf : Event → Addr → Option Err
  | .timerFire outcomes _, b => outcomes b
  | .dialFailed a e _, b => if a = b then some e else none
  | .dialSucceeded a _ peerOk addOk _, b =>
      if a = b then (if peerOk = false then some .peerMismatch else addOk) else none
  | _, _ => none

theorem timerLoop_deletion (outcomes : Addr → Option Err)
    (probe : ReqId → Option Conn) (l : List AddrDelay) (w : Worker) (b : Addr)
    (hb : (mlookup w.trackedDials b).isSome = true)
    (hdel : (mlookup (timerLoop outcomes probe l w).trackedDials b).isSome = false) :
    outcomes b = some .dialBackoff := by
  induction l generalizing w with
  | nil =>
      rw [show timerLoop outcomes probe [] w = w from rfl] at hdel
      rw [hb] at hdel
      cases hdel
  | cons ad rest ih =>
      cases hl : mlookup w.trackedDials ad.Addr with
      | none =>
          rw [timerLoop_cons_untracked hl] at hdel
          exact ih w hb hdel
      | some adl =>
          cases ho : outcomes ad.Addr with
          | none =>
              rw [timerLoop_cons_ok hl ho] at hdel
              refine ih _ ?_ hdel
              show (mlookup (mupdate w.trackedDials ad.Addr
                (fun x => { x with dialed := true })) b).isSome = true
              exact isSome_mupdate hb
          | some e =>
              rw [timerLoop_cons_err hl ho] at hdel
              by_cases hmid : (mlookup (dispatchError
                  { w with trackedDials :=
                    (mupdate w.trackedDials ad.Addr (fun x => { x with dialed := true })) }
                  ad.Addr e probe).trackedDials b).isSome = true
              · exact ih _ hmid hdel
              · rw [Bool.not_eq_true] at hmid
                by_cases hba : b = ad.Addr
                · by_cases hback : e = .dialBackoff
                  · rw [hba, ho, hback]
                  · exfalso
                    rw [hba] at hmid
                    rw [dispatchError_tracked_at, if_neg hback] at hmid
                    have h1 : (mlookup (mupdate w.trackedDials ad.Addr
                        (fun x => { x with dialed := true })) ad.Addr).isSome = true := by
                      rw [mlookup_mupdate, if_pos rfl, hl]
                      rfl
                    rw [show ({ w with trackedDials :=
                        (mupdate w.trackedDials ad.Addr (fun x => { x with dialed := true }))
                        } : Worker).trackedDials =
                      mupdate w.trackedDials ad.Addr (fun x => { x with dialed := true })
                      from rfl] at hmid
                    cases hmm : mlookup (mupdate w.trackedDials ad.Addr
                        (fun x => { x with dialed := true })) ad.Addr with
                    | none => rw [hmm] at h1; cases h1
                    | some v => rw [hmm] at hmid; cases hmid
                · exfalso
                  rw [dispatchError_tracked_other _ _ _ _ _ hba] at hmid
                  rw [show ({ w with trackedDials :=
                      (mupdate w.trackedDials ad.Addr (fun x => { x with dialed := true }))
                      } : Worker).trackedDials =
                    mupdate w.trackedDials ad.Addr (fun x => { x with dialed := true })
                    from rfl] at hmid
                  have h2 := isSome_mupdate (k := ad.Addr)
                    (f := fun x => { x with dialed := true }) hb
                  rw [hmid] at h2
                  cases h2

theorem dispatchError_deletion {w : Worker} {a : Addr} {e : Err}
    {probe : ReqId → Option Conn} {b : Addr}
    (hb : (mlookup w.trackedDials b).isSome = true)
    (hdel : (mlookup (dispatchError w a e probe).trackedDials b).isSome = false) :
    b = a ∧ e = .dialBackoff := by
  by_cases hba : b = a
  · refine ⟨hba, ?_⟩
    by_cases hback : e = .dialBackoff
    · exact hback
    · exfalso
      rw [hba] at hdel hb
      rw [dispatchError_tracked_at, if_neg hback] at hdel
      cases hmm : mlookup w.trackedDials a with
      | none => rw [hmm] at hb; cases hb
      | some v => rw [hmm] at hdel; cases hdel
  · exfalso
    rw [dispatchError_tracked_other _ _ _ _ _ hba] at hdel
    rw [hdel] at hb
    cases hb

/-- C5: a tracked dial's entry is deleted from `trackedDials` if and only if
`dispatchError` runs for it with the backoff sentinel: `dispatchError` with
`ErrDialBackoff` removes exactly the dialed address and with any other error
keeps every key (recording the error), and across every worker loop event,
a tracked entry can only disappear when the event dispatched
`ErrDialBackoff` to that address. -/
theorem claim_C5_backoff_clears_tracked :
    (∀ w a e probe, mlookup (dispatchError w a e probe).trackedDials a =
       if e = .dialBackoff then none
       else (mlookup w.trackedDials a).map (fun ad => { ad with err := some e })) ∧
    (∀ w a e probe b, ¬ b = a →
       mlookup (dispatchError w a e probe).trackedDials b = mlookup w.trackedDials b) ∧
    (∀ w ev b, (mlookup w.trackedDials b).isSome = true →
       (mlookup (procEvent w ev).trackedDials b).isSome = false →
       dispatchedErrOf ev b = some .dialBackoff) := by
  refine ⟨dispatchError_tracked_at, dispatchError_tracked_other, ?_⟩
  intro w ev b hb hdel
  cases ev with
  | request r =>
      exfalso
      have h1 := procRequest_tracked_mono w r b hb
      have h2 : (mlookup (procRequest w r).trackedDials b).isSome = false := hdel
      rw [h2] at h1
      cases h1
  | timerFire outcomes probe =>
      have hb' : (mlookup ({ w with dq := (dqNextBatch w.dq).2 } :
          Worker).trackedDials b).isSome = true := hb
      exact timerLoop_deletion outcomes probe (dqNextBatch w.dq).1 _ b hb' hdel
  | dialStarted a =>
      exfalso
      have hdel' : (mlookup (procStarted w a).trackedDials b).isSome = false := hdel
      cases hl : mlookup w.trackedDials a with
      | none =>
          rw [procStarted_untracked hl] at hdel'
          have h2 : (mlookup w.trackedDials b).isSome = false := hdel'
          rw [h2] at hb
          cases hb
      | some adl =>
          rw [procStarted_tracked hl] at hdel'
          rw [hdel'] at hb
          cases hb
  | dialFailed a e probe =>
      have hdel' : (mlookup (procFailed w a e probe).trackedDials b).isSome = false :=
        hdel
      cases hl : mlookup w.trackedDials a with
      | none =>
          exfalso
          rw [procFailed_untracked hl] at hdel'
          have h2 : (mlookup w.trackedDials b).isSome = false := hdel'
          rw [h2] at hb
          cases hb
      | some adl =>
          rw [procFailed_tracked hl] at hdel'
          have hb' : (mlookup ({ w with dialsInFlight := w.dialsInFlight - 1 } :
              Worker).trackedDials b).isSome = true := hb
          obtain ⟨hba, hback⟩ := dispatchError_deletion hb' hdel'
          rw [dispatchedErrOf, if_pos hba.symm, hback]
  | dialSucceeded a c peerOk addOk probe =>
      have hdel' : (mlookup (procSucceeded w a c peerOk addOk
          probe).trackedDials b).isSome = false := hdel
      cases hl : mlookup w.trackedDials a with
      | none =>
          exfalso
          rw [procSucceeded_untracked hl] at hdel'
          have h2 : (mlookup w.trackedDials b).isSome = false := hdel'
          rw [h2] at hb
          cases hb
      | some adl =>
          rw [procSucceeded_tracked hl] at hdel'
          have hb' : (mlookup ({ w with dialsInFlight := w.dialsInFlight - 1 } :
              Worker).trackedDials b).isSome = true := hb
          cases peerOk with
          | false =>
              exfalso
              rw [handleSuccess_peerFail] at hdel'
              obtain ⟨-, hback⟩ := dispatchError_deletion hb' hdel'
              cases hback
          | true =>
              cases addOk with
              | none =>
                  exfalso
                  rw [handleSuccess_ok] at hdel'
                  have h2 := isSome_mupdate (k := a)
                    (f := fun ad => { ad with conn := some c }) hb
                  rw [show (mlookup (mupdate w.trackedDials a
                    (fun ad => { ad with conn := some c })) b).isSome = false
                    from hdel'] at h2
                  cases h2
              | some e =>
                  rw [handleSuccess_addErr] at hdel'
                  obtain ⟨hba, hback⟩ := dispatchError_deletion hb' hdel'
                  rw [dispatchedErrOf, if_pos hba.symm]
                  simp [hback]

theorem anr_track (sc : Bool) (l : List AddrDelay) (pr : PendRequest)
    (td : List (Addr × AddrDial)) (dq : List AddrDelay) (b : Addr) (ad' : AddrDial)
    (h : mlookup (anrLoop sc l pr td dq).2.1 b = some ad') :
    mlookup td b = some ad' ∨
    (∃ ad, mlookup td b = some ad ∧ sc = true ∧ ad.dialed = false ∧ ad.err = none ∧
       ad.simConnect = false ∧ ad' = { ad with simConnect := true }) ∨
    (mlookup td b = none ∧ ad'.simConnect = sc) := by
  induction l generalizing pr td dq with
  | nil => exact Or.inl h
  | cons ad0 rest ih =>
      cases hl : mlookup td ad0.Addr with
      | none =>
          rw [anrLoop_cons_new hl] at h
          rcases ih _ _ _ h with h1 | ⟨ad1, h1, hsc, hd, he, hs, hup⟩ | ⟨h1, hs⟩
          · rw [mlookup_minsert] at h1
            by_cases hba : b = ad0.Addr
            · rw [if_pos hba] at h1
              refine Or.inr (Or.inr ⟨by rw [hba]; exact hl, ?_⟩)
              rw [← Option.some.inj h1]
            · rw [if_neg hba] at h1
              exact Or.inl h1
          · rw [mlookup_minsert] at h1
            by_cases hba : b = ad0.Addr
            · rw [if_pos hba] at h1
              exfalso
              have : ad1.simConnect = sc := by rw [← Option.some.inj h1]
              rw [hs, hsc] at this
              cases this
            · rw [if_neg hba] at h1
              exact Or.inr (Or.inl ⟨ad1, h1, hsc, hd, he, hs, hup⟩)
          · rw [mlookup_minsert] at h1
            by_cases hba : b = ad0.Addr
            · rw [if_pos hba] at h1
              cases h1
            · rw [if_neg hba] at h1
              exact Or.inr (Or.inr ⟨h1, hs⟩)
      | some adl =>
          cases he0 : adl.err with
          | some e =>
              rw [anrLoop_cons_errored hl he0] at h
              exact ih _ _ _ h
          | none =>
              by_cases hcond : adl.dialed = false ∧ sc = true ∧ adl.simConnect = false
              · rw [anrLoop_cons_upgrade hl he0 hcond] at h
                rcases ih _ _ _ h with h1 | ⟨ad1, h1, hsc, hd, he, hs, hup⟩ | ⟨h1, hs⟩
                · rw [mlookup_mupdate] at h1
                  by_cases hba : b = ad0.Addr
                  · rw [if_pos hba, hl] at h1
                    refine Or.inr (Or.inl ⟨adl, by rw [hba]; exact hl, hcond.2.1,
                      hcond.1, he0, hcond.2.2, ?_⟩)
                    rw [← Option.some.inj h1]
                  · rw [if_neg hba] at h1
                    exact Or.inl h1
                · rw [mlookup_mupdate] at h1
                  by_cases hba : b = ad0.Addr
                  · rw [if_pos hba, hl] at h1
                    exfalso
                    have : ad1.simConnect = true := by rw [← Option.some.inj h1]
                    rw [hs] at this
                    cases this
                  · rw [if_neg hba] at h1
                    exact Or.inr (Or.inl ⟨ad1, h1, hsc, hd, he, hs, hup⟩)
                · rw [mlookup_mupdate] at h1
                  by_cases hba : b = ad0.Addr
                  · rw [if_pos hba, hl] at h1
                    cases h1
                  · rw [if_neg hba] at h1
                    exact Or.inr (Or.inr ⟨h1, hs⟩)
              · rw [anrLoop_cons_skip hl he0 hcond] at h
                exact ih _ _ _ h

theorem procRequest_track (w : Worker) (r : ReqEvent) (b : Addr) (ad ad' : AddrDial)
    (hb : mlookup w.trackedDials b = some ad)
    (ha : mlookup (procRequest w r).trackedDials b = some ad') :
    ad' = ad ∨
    (r.simConnect = true ∧ ad.dialed = false ∧ ad.err = none ∧
      ad.simConnect = false ∧ ad' = { ad with simConnect := true }) := by
  unfold procRequest at ha
  by_cases h1 : r.bestConn.isSome = true ∨ r.bestErr.isSome = true
  · rw [if_pos h1] at ha
    have ha2 : mlookup w.trackedDials b = some ad' := ha
    rw [hb] at ha2
    exact Or.inl (Option.some.inj ha2).symm
  · rw [if_neg h1] at ha
    cases hf : r.fatal with
    | some e =>
        rw [hf] at ha
        have ha2 : mlookup w.trackedDials b = some ad' := ha
        rw [hb] at ha2
        exact Or.inl (Option.some.inj ha2).symm
    | none =>
        rw [hf] at ha
        cases hc : findSuccessConn w r.addrs with
        | some c =>
            rw [hc] at ha
            have ha2 : mlookup w.trackedDials b = some ad' := ha
            rw [hb] at ha2
            exact Or.inl (Option.some.inj ha2).symm
        | none =>
            rw [hc] at ha
            have ha' : mlookup (addNewRequest w r.rid r.simConnect r.ranked
                r.addrErrs).trackedDials b = some ad' := ha
            rw [addNewRequest_tracked] at ha'
            rcases anr_track _ _ _ _ _ _ _ ha' with h2 | ⟨ad1, h2, hsc, hd, he, hs, hup⟩
              | ⟨h2, -⟩
            · rw [hb] at h2
              exact Or.inl (Option.some.inj h2).symm
            · rw [hb] at h2
              have had : ad1 = ad := (Option.some.inj h2).symm
              rw [had] at hd he hs hup
              exact Or.inr ⟨hsc, hd, he, hs, hup⟩
            · rw [hb] at h2
              cases h2

theorem dispatchError_track {w : Worker} {a : Addr} {e : Err}
    {probe : ReqId → Option Conn} {b : Addr} {ad ad' : AddrDial}
    (hb : mlookup w.trackedDials b = some ad)
    (ha : mlookup (dispatchError w a e probe).trackedDials b = some ad') :
    ad'.simConnect = ad.simConnect := by
  by_cases hba : b = a
  · rw [hba] at hb ha
    rw [dispatchError_tracked_at] at ha
    by_cases hback : e = .dialBackoff
    · rw [if_pos hback] at ha
      cases ha
    · rw [if_neg hback, hb] at ha
      rw [← Option.some.inj ha]
  · rw [dispatchError_tracked_other _ _ _ _ _ hba, hb] at ha
    rw [← Option.some.inj ha]

theorem dispatchError_tracked_none {w : Worker} {a : Addr} {e : Err}
    {probe : ReqId → Option Conn} {b : Addr}
    (hb : mlookup w.trackedDials b = none) :
    mlookup (dispatchError w a e probe).trackedDials b = none := by
  by_cases hba : b = a
  · rw [hba] at hb ⊢
    rw [dispatchError_tracked_at]
    by_cases hback : e = .dialBackoff
    · rw [if_pos hback]
    · rw [if_neg hback, hb]
      rfl
  · rw [dispatchError_tracked_other _ _ _ _ _ hba, hb]

theorem mupdate_tracked_none {td : List (Addr × AddrDial)} {b k : Addr}
    {f : AddrDial → AddrDial} (hb : mlookup td b = none) :
    mlookup (mupdate td k f) b = none := by
  rw [mlookup_mupdate]
  by_cases hk : b = k
  · rw [if_pos hk, ← hk, hb]
    rfl
  · rw [if_neg hk]
    exact hb

theorem timerLoop_tracked_none (outcomes : Addr → Option Err)
    (probe : ReqId → Option Conn) (l : List AddrDelay) (w : Worker) (b : Addr)
    (hb : mlookup w.trackedDials b = none) :
    mlookup (timerLoop outcomes probe l w).trackedDials b = none := by
  induction l generalizing w with
  | nil => exact hb
  | cons ad rest ih =>
      cases hl : mlookup w.trackedDials ad.Addr with
      | none =>
          rw [timerLoop_cons_untracked hl]
          exact ih _ hb
      | some adl =>
          cases ho : outcomes ad.Addr with
          | none =>
              rw [timerLoop_cons_ok hl ho]
              refine ih _ ?_
              show mlookup (mupdate w.trackedDials ad.Addr
                (fun x => { x with dialed := true })) b = none
              exact mupdate_tracked_none hb
          | some e =>
              rw [timerLoop_cons_err hl ho]
              refine ih _ ?_
              refine dispatchError_tracked_none ?_
              show mlookup (mupdate w.trackedDials ad.Addr
                (fun x => { x with dialed := true })) b = none
              exact mupdate_tracked_none hb

theorem timerLoop_track (outcomes : Addr → Option Err)
    (probe : ReqId → Option Conn) (l : List AddrDelay) (w : Worker) (b : Addr)
    (ad ad' : AddrDial) (hb : mlookup w.trackedDials b = some ad)
    (ha : mlookup (timerLoop outcomes probe l w).trackedDials b = some ad') :
    ad'.simConnect = ad.simConnect := by
  induction l generalizing w ad with
  | nil =>
      have ha2 : mlookup w.trackedDials b = some ad' := ha
      rw [hb] at ha2
      rw [← Option.some.inj ha2]
  | cons ad0 rest ih =>
      cases hl : mlookup w.trackedDials ad0.Addr with
      | none =>
          rw [timerLoop_cons_untracked hl] at ha
          exact ih _ _ hb ha
      | some adl =>
          cases ho : outcomes ad0.Addr with
          | none =>
              rw [timerLoop_cons_ok hl ho] at ha
              by_cases hba : b = ad0.Addr
              · have hmid : mlookup (mupdate w.trackedDials ad0.Addr
                    (fun x => { x with dialed := true })) b =
                    some { ad with dialed := true } := by
                  rw [mlookup_mupdate, if_pos hba, ← hba, hb]
                  rfl
                have := ih _ _ hmid ha
                rw [this]
              · have hmid : mlookup (mupdate w.trackedDials ad0.Addr
                    (fun x => { x with dialed := true })) b = some ad := by
                  rw [mlookup_mupdate, if_neg hba]
                  exact hb
                exact ih _ _ hmid ha
          | some e =>
              rw [timerLoop_cons_err hl ho] at ha
              have hw1 : ∃ admid, mlookup
                  (mupdate w.trackedDials ad0.Addr (fun x => { x with dialed := true }))
                  b = some admid ∧ admid.simConnect = ad.simConnect := by
                rw [mlookup_mupdate]
                by_cases hba : b = ad0.Addr
                · rw [if_pos hba, ← hba, hb]
                  exact ⟨{ ad with dialed := true }, rfl, rfl⟩
                · rw [if_neg hba]
                  exact ⟨ad, hb, rfl⟩
              obtain ⟨admid, hmid, hsim⟩ := hw1
              by_cases hafter : ∃ admid2, mlookup (dispatchError
                  { w with trackedDials := (mupdate w.trackedDials ad0.Addr
                    (fun x => { x with dialed := true })) }
                  ad0.Addr e probe).trackedDials b = some admid2
              · obtain ⟨admid2, hmid2⟩ := hafter
                have h3 : admid2.simConnect = admid.simConnect :=
                  dispatchError_track hmid hmid2
                have h4 := ih _ _ hmid2 ha
                rw [h4, h3, hsim]
              · exfalso
                cases hmm : mlookup (dispatchError
                    { w with trackedDials := (mupdate w.trackedDials ad0.Addr
                      (fun x => { x with dialed := true })) }
                    ad0.Addr e probe).trackedDials b with
                | some v => exact hafter ⟨v, hmm⟩
                | none =>
                    have := timerLoop_tracked_none outcomes probe rest _ b hmm
                    rw [this] at ha
                    cases ha

theorem handleSuccess_track {w : Worker} {a : Addr} {c : Conn} {peerOk : Bool}
    {addOk : Option Err} {probe : ReqId → Option Conn} {b : Addr} {ad ad' : AddrDial}
    (hb : mlookup w.trackedDials b = some ad)
    (ha : mlookup (handleSuccess w a c peerOk addOk probe).trackedDials b = some ad') :
    ad'.simConnect = ad.simConnect := by
  cases peerOk with
  | false =>
      rw [handleSuccess_peerFail] at ha
      exact dispatchError_track hb ha
  | true =>
      cases addOk with
      | some e =>
          rw [handleSuccess_addErr] at ha
          exact dispatchError_track hb ha
      | none =>
          rw [handleSuccess_ok] at ha
          have ha' : mlookup (mupdate w.trackedDials a
              (fun x => { x with conn := some c })) b = some ad' := ha
          rw [mlookup_mupdate] at ha'
          by_cases hba : b = a
          · rw [if_pos hba, ← hba, hb] at ha'
            rw [← Option.some.inj ha']
          · rw [if_neg hba, hb] at ha'
            rw [← Option.some.inj ha']

/-- C9: for every address tracked by the worker, over every worker loop
event the tracked dial's context never downgrades from simultaneous-connect
to non-simultaneous-connect, and the upgrade from non-simultaneous-connect
to simultaneous-connect happens only for an address that is not yet dialed
and not errored, while handling a simultaneous-connect request. Boolean
monotonicity along every event sequence gives: at most one upgrade, never a
downgrade, for the worker's lifetime. -/
theorem claim_C9_simconnect_monotone (w : Worker) (ev : Event) (b : Addr)
    (ad ad' : AddrDial) (hb : mlookup w.trackedDials b = some ad)
    (ha : mlookup (procEvent w ev).trackedDials b = some ad') :
    (ad.simConnect = true → ad'.simConnect = true) ∧
    (ad.simConnect = false → ad'.simConnect = true →
      ad.dialed = false ∧ ad.err = none ∧
      ∃ r, ev = .request r ∧ r.simConnect = true) := by
  cases ev with
  | request r =>
      have ha' : mlookup (procRequest w r).trackedDials b = some ad' := ha
      rcases procRequest_track w r b ad ad' hb ha' with rfl | ⟨hsc, hd, he, hs, hup⟩
      · exact ⟨fun h => h, fun h1 h2 => by rw [h1] at h2; cases h2⟩
      · constructor
        · intro h
          rw [hs] at h
          cases h
        · intro h1 h2
          exact ⟨hd, he, ⟨r, rfl, hsc⟩⟩
  | timerFire outcomes probe =>
      have ha' : mlookup (timerLoop outcomes probe (dqNextBatch w.dq).1
          { w with dq := (dqNextBatch w.dq).2 }).trackedDials b = some ad' := ha
      have hb' : mlookup ({ w with dq := (dqNextBatch w.dq).2 } :
          Worker).trackedDials b = some ad := hb
      have hsim := timerLoop_track outcomes probe _ _ b ad ad' hb' ha'
      exact ⟨fun h => by rw [hsim, h], fun h1 h2 => by rw [hsim, h1] at h2; cases h2⟩
  | dialStarted a =>
      have hsim : ad'.simConnect = ad.simConnect := by
        have ha' : mlookup (procStarted w a).trackedDials b = some ad' := ha
        cases hl : mlookup w.trackedDials a with
        | none =>
            rw [procStarted_untracked hl] at ha'
            have h2 : mlookup w.trackedDials b = some ad' := ha'
            rw [hb] at h2
            rw [← Option.some.inj h2]
        | some adl =>
            rw [procStarted_tracked hl] at ha'
            rw [hb] at ha'
            rw [← Option.some.inj ha']
      exact ⟨fun h => by rw [hsim, h], fun h1 h2 => by rw [hsim, h1] at h2; cases h2⟩
  | dialFailed a e probe =>
      have hsim : ad'.simConnect = ad.simConnect := by
        have ha' : mlookup (procFailed w a e probe).trackedDials b = some ad' := ha
        cases hl : mlookup w.trackedDials a with
        | none =>
            rw [procFailed_untracked hl] at ha'
            have h2 : mlookup w.trackedDials b = some ad' := ha'
            rw [hb] at h2
            rw [← Option.some.inj h2]
        | some adl =>
            rw [procFailed_tracked hl] at ha'
            exact dispatchError_track (w := { w with
              dialsInFlight := w.dialsInFlight - 1 }) hb ha'
      exact ⟨fun h => by rw [hsim, h], fun h1 h2 => by rw [hsim, h1] at h2; cases h2⟩
  | dialSucceeded a c peerOk addOk probe =>
      have hsim : ad'.simConnect = ad.simConnect := by
        have ha' : mlookup (procSucceeded w a c peerOk addOk probe).trackedDials b
            = some ad' := ha
        cases hl : mlookup w.trackedDials a with
        | none =>
            rw [procSucceeded_untracked hl] at ha'
            have h2 : mlookup w.trackedDials b = some ad' := ha'
            rw [hb] at h2
            rw [← Option.some.inj h2]
        | some adl =>
            rw [procSucceeded_tracked hl] at ha'
            exact handleSuccess_track (w := { w with
              dialsInFlight := w.dialsInFlight - 1 }) hb ha'
      exact ⟨fun h => by rw [hsim, h], fun h1 h2 => by rw [hsim, h1] at h2; cases h2⟩

def demoAD : AddrDial := ⟨"x", true, none, none, false⟩

theorem claim_C9_witness :
    (demoAD.simConnect = true → demoAD.simConnect = true) ∧
    (demoAD.simConnect = false → demoAD.simConnect = true →
      demoAD.dialed = false ∧ demoAD.err = none ∧
      ∃ r, Event.dialStarted "y" = .request r ∧ r.simConnect = true) :=
  claim_C9_simconnect_monotone
    { initWorker with trackedDials := [("x", demoAD)] }
    (.dialStarted "y") "x" demoAD demoAD rfl rfl

theorem claim_C5_witness :
    mlookup (dispatchError
      { initWorker with trackedDials := [("x", ⟨"x", false, none, none, true⟩)] }
      "x" .dialBackoff (fun _ => none)).trackedDials "x" = none := by
  have h := claim_C5_backoff_clears_tracked.1
    { initWorker with trackedDials := [("x", ⟨"x", false, none, none, true⟩)] }
    "x" .dialBackoff (fun _ => none)
  rw [h]
  rfl

/-! #### Balance: one response or one pending entry per accepted request -/

theorem bal_dispatchError (w : Worker) (a : Addr) (e : Err)
    (probe : ReqId → Option Conn) (r : ReqId) :
    respCount (dispatchError w a e probe) r + pendCount (dispatchError w a e probe) r
      = respCount w r + pendCount w r := by
  have hd := dispatchPend_balance a e probe w.pending r
  simp only [respCount, pendCount, dispatchError, rcount_append]
  omega

theorem successPend_balance (a : Addr) (c : Conn) (l : List PendRequest) (r : ReqId) :
    pcount r (successPend a c l).1 + rcount r (successPend a c l).2 = pcount r l := by
  induction l with
  | nil => rfl
  | cons pr rest ih =>
      by_cases ha : a ∈ pr.addrs
      · simp only [successPend, if_pos ha, rcount_cons, pcount_cons]
        by_cases hid : pr.id = r <;> simp [hid] <;> omega
      · simp only [successPend, if_neg ha, pcount_cons]
        by_cases hid : pr.id = r <;> simp [hid] <;> omega

theorem bal_handleSuccess (w : Worker) (a : Addr) (c : Conn) (peerOk : Bool)
    (addOk : Option Err) (probe : ReqId → Option Conn) (r : ReqId) :
    respCount (handleSuccess w a c peerOk addOk probe) r
      + pendCount (handleSuccess w a c peerOk addOk probe) r
      = respCount w r + pendCount w r := by
  cases peerOk with
  | false =>
      rw [handleSuccess_peerFail]
      exact bal_dispatchError w a .peerMismatch probe r
  | true =>
      cases addOk with
      | some e =>
          rw [handleSuccess_addErr]
          exact bal_dispatchError w a e probe r
      | none =>
          rw [handleSuccess_ok]
          have hs := successPend_balance a c w.pending r
          simp only [respCount, pendCount, rcount_append]
          omega

theorem anr_pr_id (sc : Bool) (l : List AddrDelay) (pr : PendRequest)
    (td : List (Addr × AddrDial)) (dq : List AddrDelay) :
    (anrLoop sc l pr td dq).1.id = pr.id := by
  induction l generalizing pr td dq with
  | nil => rfl
  | cons ad rest ih =>
      cases hl : mlookup td ad.Addr with
      | none =>
          rw [anrLoop_cons_new hl]
          exact ih _ _ _
      | some adl =>
          cases he : adl.err with
          | some e =>
              rw [anrLoop_cons_errored hl he]
              exact ih _ _ _
          | none =>
              by_cases hcond : adl.dialed = false ∧ sc = true ∧ adl.simConnect = false
              · rw [anrLoop_cons_upgrade hl he hcond]
                exact ih _ _ _
              · rw [anrLoop_cons_skip hl he hcond]
                exact ih _ _ _

theorem bal_addNewRequest (w : Worker) (rid : ReqId) (sc : Bool)
    (ranked : List AddrDelay) (addrErrs : List (Addr × Err)) (r : ReqId) :
    respCount (addNewRequest w rid sc ranked addrErrs) r
      + pendCount (addNewRequest w rid sc ranked addrErrs) r
      = respCount w r + pendCount w r + (if rid = r then 1 else 0) := by
  simp only [addNewRequest]
  split
  · simp only [respCount, pendCount, rcount_append]
    rw [rcount_cons]
    simp only [rcount, List.filter_nil, List.length_nil]
    omega
  · simp only [respCount, pendCount, pcount_append]
    rw [pcount_cons]
    have hid := anr_pr_id sc ranked
      ⟨rid, addrErrs, (ranked.map AddrDelay.Addr).dedup⟩ w.trackedDials w.dq
    rw [hid]
    simp only [pcount, List.filter_nil, List.length_nil]
    omega

theorem respCount_respond (w : Worker) (rid : ReqId) (resp : DialResponse) (r : ReqId) :
    respCount (respond w rid resp) r = respCount w r + (if rid = r then 1 else 0) := by
  simp only [respCount, respond, rcount_append, rcount_cons]
  simp only [rcount, List.filter_nil, List.length_nil]
  omega

theorem bal_procRequest (w : Worker) (q : ReqEvent) (r : ReqId) :
    respCount (procRequest w q) r + pendCount (procRequest w q) r
      = respCount w r + pendCount w r + (if q.rid = r then 1 else 0) := by
  unfold procRequest
  by_cases h1 : q.bestConn.isSome = true ∨ q.bestErr.isSome = true
  · rw [if_pos h1, respCount_respond]
    have hp : pendCount (respond w q.rid ⟨q.bestConn, q.bestErr.map .plain⟩) r
      = pendCount w r := rfl
    omega
  · rw [if_neg h1]
    cases hf : q.fatal with
    | some e =>
        have hg : respCount (respond w q.rid
              ⟨none, some (.dial ⟨q.addrErrs, some e⟩)⟩) r
            + pendCount (respond w q.rid
              ⟨none, some (.dial ⟨q.addrErrs, some e⟩)⟩) r
            = respCount w r + pendCount w r + (if q.rid = r then 1 else 0) := by
          rw [respCount_respond]
          have hp : pendCount (respond w q.rid
            ⟨none, some (.dial ⟨q.addrErrs, some e⟩)⟩) r = pendCount w r := rfl
          omega
        exact hg
    | none =>
        cases hc : findSuccessConn w q.addrs with
        | some c =>
            have hg : respCount (respond w q.rid ⟨some c, none⟩) r
                + pendCount (respond w q.rid ⟨some c, none⟩) r
                = respCount w r + pendCount w r + (if q.rid = r then 1 else 0) := by
              rw [respCount_respond]
              have hp : pendCount (respond w q.rid ⟨some c, none⟩) r
                = pendCount w r := rfl
              omega
            exact hg
        | none => exact bal_addNewRequest w q.rid q.simConnect q.ranked q.addrErrs r

theorem bal_timerLoop (outcomes : Addr → Option Err) (probe : ReqId → Option Conn)
    (l : List AddrDelay) (w : Worker) (r : ReqId) :
    respCount (timerLoop outcomes probe l w) r + pendCount (timerLoop outcomes probe l w) r
      = respCount w r + pendCount w r := by
  induction l generalizing w with
  | nil => rfl
  | cons ad rest ih =>
      cases hl : mlookup w.trackedDials ad.Addr with
      | none =>
          rw [timerLoop_cons_untracked hl]
          exact ih w
      | some adl =>
          cases ho : outcomes ad.Addr with
          | none =>
              rw [timerLoop_cons_ok hl ho]
              exact ih _
          | some e =>
              rw [timerLoop_cons_err hl ho]
              rw [ih _]
              exact bal_dispatchError _ ad.Addr e probe r

/-- How many responses one event owes: one for a request, none otherwise. -/
def reqDelta : Event → ReqId → Nat
  | .request q, r => if q.rid = r then 1 else 0
  | _, _ => 0

theorem bal_procEvent (w : Worker) (ev : Event) (r : ReqId) :
    respCount (procEvent w ev) r + pendCount (procEvent w ev) r
      = respCount w r + pendCount w r + reqDelta ev r := by
  cases ev with
  | request q => exact bal_procRequest w q r
  | timerFire outcomes probe =>
      have h := bal_timerLoop outcomes probe (dqNextBatch w.dq).1
        { w with dq := (dqNextBatch w.dq).2 } r
      exact h
  | dialStarted a =>
      cases hl : mlookup w.trackedDials a with
      | none =>
          have h : procEvent w (.dialStarted a)
            = { w with dialsInFlight := w.dialsInFlight - 1 } := procStarted_untracked hl
          rw [h]
          rfl
      | some adl =>
          have h : procEvent w (.dialStarted a) = w := procStarted_tracked hl
          rw [h]
          rfl
  | dialFailed a e probe =>
      cases hl : mlookup w.trackedDials a with
      | none =>
          have h : procEvent w (.dialFailed a e probe)
            = { w with dialsInFlight := w.dialsInFlight - 1 } := procFailed_untracked hl
          rw [h]
          rfl
      | some adl =>
          have h : procEvent w (.dialFailed a e probe)
            = dispatchError { w with dialsInFlight := w.dialsInFlight - 1 } a e probe :=
            procFailed_tracked hl
          rw [h]
          exact bal_dispatchError _ a e probe r
  | dialSucceeded a c peerOk addOk probe =>
      cases hl : mlookup w.trackedDials a with
      | none =>
          have h : procEvent w (.dialSucceeded a c peerOk addOk probe)
            = { w with dialsInFlight := w.dialsInFlight - 1 } :=
            procSucceeded_untracked hl
          rw [h]
          rfl
      | some adl =>
          have h : procEvent w (.dialSucceeded a c peerOk addOk probe)
            = handleSuccess { w with dialsInFlight := w.dialsInFlight - 1 } a c peerOk
                addOk probe := procSucceeded_tracked hl
          rw [h]
          exact bal_handleSuccess _ a c peerOk addOk probe r

/-- Number of request events for a given id in a trace. -/
def reqCount (es : List Event) (r : ReqId) : Nat :=
  (es.filter (fun e => match e with | .request q => q.rid == r | _ => false)).length

theorem reqCount_cons (e : Event) (es : List Event) (r : ReqId) :
    reqCount (e :: es) r = reqDelta e r + reqCount es r := by
  cases e with
  | request q =>
      by_cases h : q.rid = r
      · simp [reqCount, reqDelta, List.filter_cons, h, Nat.add_comm]
      · simp [reqCount, reqDelta, List.filter_cons, h]
  | timerFire outcomes probe => simp [reqCount, reqDelta, List.filter_cons]
  | dialStarted a => simp [reqCount, reqDelta, List.filter_cons]
  | dialSucceeded a c pk ao probe => simp [reqCount, reqDelta, List.filter_cons]
  | dialFailed a e probe => simp [reqCount, reqDelta, List.filter_cons]

theorem bal_runFrom (es : List Event) (w : Worker) (r : ReqId) :
    respCount (runFrom w es) r + pendCount (runFrom w es) r
      = respCount w r + pendCount w r + reqCount es r := by
  induction es generalizing w with
  | nil => rfl
  | cons e rest ih =>
      have h1 : runFrom w (e :: rest) = runFrom (procEvent w e) rest := rfl
      rw [h1, ih, bal_procEvent, reqCount_cons]
      omega

/-! #### The pending-set invariant: nonempty, duplicate-free address sets
that point into the tracked dials -/

/-- Invariant of the worker loop: every pending request still waits on at
least one address, its address set is duplicate-free (it is a Go map), and
every address it waits on has a tracked dial (spec §3 invariant 3). -/
def GoodPending (w : Worker) : Prop :=
  ∀ pr ∈ w.pending, pr.addrs ≠ [] ∧ pr.addrs.Nodup ∧
    ∀ a ∈ pr.addrs, (mlookup w.trackedDials a).isSome = true

theorem dispatchError_tracked_isSome {w : Worker} {a : Addr} {e : Err}
    {probe : ReqId → Option Conn} {b : Addr} (hba : ¬ b = a)
    (h : (mlookup w.trackedDials b).isSome = true) :
    (mlookup (dispatchError w a e probe).trackedDials b).isSome = true := by
  rw [dispatchError_tracked_other _ _ _ _ _ hba]
  exact h

theorem good_dispatchError {w : Worker} (a : Addr) (e : Err)
    (probe : ReqId → Option Conn) (hg : GoodPending w) :
    GoodPending (dispatchError w a e probe) := by
  intro q hq
  have hq' : q ∈ (dispatchPend a e probe w.pending).1 := hq
  rcases dispatchPend_pending_shape a e probe w.pending q hq' with
    ⟨hql, hqa⟩ | ⟨pr, hpr, ha, hne, hupd⟩
  · obtain ⟨h1, h2, h3⟩ := hg q hql
    refine ⟨h1, h2, ?_⟩
    intro b hb
    exact dispatchError_tracked_isSome (fun hba => hqa (hba ▸ hb)) (h3 b hb)
  · obtain ⟨h1, h2, h3⟩ := hg pr hpr
    subst hupd
    refine ⟨hne, List.Nodup.erase a h2, ?_⟩
    intro b hb
    have hb2 : b ≠ a ∧ b ∈ pr.addrs := (List.Nodup.mem_erase_iff h2).mp hb
    exact dispatchError_tracked_isSome hb2.1 (h3 b hb2.2)

theorem successPend_pending_shape (a : Addr) (c : Conn) (l : List PendRequest) :
    ∀ q ∈ (successPend a c l).1, q ∈ l := by
  induction l with
  | nil => intro q hq; cases hq
  | cons pr rest ih =>
      intro q hq
      simp only [successPend] at hq
      by_cases ha : a ∈ pr.addrs
      · rw [if_pos ha] at hq
        exact List.mem_cons_of_mem _ (ih q hq)
      · rw [if_neg ha] at hq
        rcases List.mem_cons.mp hq with rfl | hq
        · exact List.mem_cons_self _ _
        · exact List.mem_cons_of_mem _ (ih q hq)

theorem good_handleSuccess {w : Worker} (a : Addr) (c : Conn) (peerOk : Bool)
    (addOk : Option Err) (probe : ReqId → Option Conn) (hg : GoodPending w) :
    GoodPending (handleSuccess w a c peerOk addOk probe) := by
  cases peerOk with
  | false =>
      rw [handleSuccess_peerFail]
      exact good_dispatchError a .peerMismatch probe hg
  | true =>
      cases addOk with
      | some e =>
          rw [handleSuccess_addErr]
          exact good_dispatchError a e probe hg
      | none =>
          rw [handleSuccess_ok]
          intro q hq
          have hq' : q ∈ (successPend a c w.pending).1 := hq
          obtain ⟨h1, h2, h3⟩ := hg q (successPend_pending_shape a c w.pending q hq')
          refine ⟨h1, h2, ?_⟩
          intro b hb
          show (mlookup (mupdate w.trackedDials a
            (fun ad => { ad with conn := some c })) b).isSome = true
          exact isSome_mupdate (h3 b hb)

theorem anr_addrs_nodup (sc : Bool) (l : List AddrDelay) (pr : PendRequest)
    (td : List (Addr × AddrDial)) (dq : List AddrDelay)
    (h : pr.addrs.Nodup) : (anrLoop sc l pr td dq).1.addrs.Nodup := by
  induction l generalizing pr td dq with
  | nil => exact h
  | cons ad rest ih =>
      cases hl : mlookup td ad.Addr with
      | none =>
          rw [anrLoop_cons_new hl]
          exact ih _ _ _ h
      | some adl =>
          cases he : adl.err with
          | some e =>
              rw [anrLoop_cons_errored hl he]
              exact ih _ _ _ (List.Nodup.erase adl.addr h)
          | none =>
              by_cases hcond : adl.dialed = false ∧ sc = true ∧ adl.simConnect = false
              · rw [anrLoop_cons_upgrade hl he hcond]
                exact ih _ _ _ h
              · rw [anrLoop_cons_skip hl he hcond]
                exact ih _ _ _ h

theorem anr_addrs_tracked (sc : Bool) (l : List AddrDelay) (pr : PendRequest)
    (td : List (Addr × AddrDial)) (dq : List AddrDelay)
    (h : ∀ b ∈ pr.addrs, (mlookup td b).isSome = true ∨ b ∈ l.map AddrDelay.Addr) :
    ∀ b ∈ (anrLoop sc l pr td dq).1.addrs,
      (mlookup (anrLoop sc l pr td dq).2.1 b).isSome = true := by
  induction l generalizing pr td dq with
  | nil =>
      intro b hb
      rcases h b hb with h1 | h1
      · exact h1
      · cases h1
  | cons ad rest ih =>
      cases hl : mlookup td ad.Addr with
      | none =>
          rw [anrLoop_cons_new hl]
          refine ih _ _ _ ?_
          intro b hb
          rcases h b hb with h1 | h1
          · exact Or.inl (isSome_minsert h1)
          · rcases List.mem_cons.mp h1 with h2 | h2
            · refine Or.inl ?_
              rw [mlookup_minsert, if_pos h2]
              rfl
            · exact Or.inr h2
      | some adl =>
          cases he : adl.err with
          | some e =>
              rw [anrLoop_cons_errored hl he]
              refine ih _ _ _ ?_
              intro b hb
              have hb2 : b ∈ pr.addrs := List.mem_of_mem_erase hb
              rcases h b hb2 with h1 | h1
              · exact Or.inl h1
              · rcases List.mem_cons.mp h1 with h2 | h2
                · refine Or.inl ?_
                  rw [h2, hl]
                  rfl
                · exact Or.inr h2
          | none =>
              by_cases hcond : adl.dialed = false ∧ sc = true ∧ adl.simConnect = false
              · rw [anrLoop_cons_upgrade hl he hcond]
                refine ih _ _ _ ?_
                intro b hb
                rcases h b hb with h1 | h1
                · exact Or.inl (isSome_mupdate h1)
                · rcases List.mem_cons.mp h1 with h2 | h2
                  · refine Or.inl ?_
                    rw [mlookup_mupdate, if_pos h2, hl]
                    rfl
                  · exact Or.inr h2
              · rw [anrLoop_cons_skip hl he hcond]
                refine ih _ _ _ ?_
                intro b hb
                rcases h b hb with h1 | h1
                · exact Or.inl h1
                · rcases List.mem_cons.mp h1 with h2 | h2
                  · refine Or.inl ?_
                    rw [h2, hl]
                    rfl
                  · exact Or.inr h2

theorem good_addNewRequest {w : Worker} (rid : ReqId) (sc : Bool)
    (ranked : List AddrDelay) (addrErrs : List (Addr × Err))
    (hg : GoodPending w) : GoodPending (addNewRequest w rid sc ranked addrErrs) := by
  simp only [addNewRequest]
  split
  · intro q hq
    obtain ⟨h1, h2, h3⟩ := hg q hq
    refine ⟨h1, h2, ?_⟩
    intro b hb
    exact anr_tracked_mono sc ranked _ w.trackedDials w.dq b (h3 b hb)
  · rename_i hne
    intro q hq
    rcases List.mem_append.mp hq with hq | hq
    · obtain ⟨h1, h2, h3⟩ := hg q hq
      refine ⟨h1, h2, ?_⟩
      intro b hb
      exact anr_tracked_mono sc ranked _ w.trackedDials w.dq b (h3 b hb)
    · rcases List.mem_singleton.mp hq with rfl
      refine ⟨hne, ?_, ?_⟩
      · exact anr_addrs_nodup sc ranked _ w.trackedDials w.dq
          (List.nodup_dedup _)
      · refine anr_addrs_tracked sc ranked _ w.trackedDials w.dq ?_
        intro b hb
        exact Or.inr (List.mem_dedup.mp hb)

theorem good_procRequest {w : Worker} (r : ReqEvent) (hg : GoodPending w) :
    GoodPending (procRequest w r) := by
  unfold procRequest
  by_cases h1 : r.bestConn.isSome = true ∨ r.bestErr.isSome = true
  · rw [if_pos h1]
    exact hg
  · rw [if_neg h1]
    cases hf : r.fatal with
    | some e => exact hg
    | none =>
        cases hc : findSuccessConn w r.addrs with
        | some c => exact hg
        | none =>
            show GoodPending (addNewRequest w r.rid r.simConnect r.ranked r.addrErrs)
            exact good_addNewRequest r.rid r.simConnect r.ranked r.addrErrs hg

theorem good_timerLoop {outcomes : Addr → Option Err} {probe : ReqId → Option Conn}
    (l : List AddrDelay) (w : Worker) (hg : GoodPending w) :
    GoodPending (timerLoop outcomes probe l w) := by
  induction l generalizing w with
  | nil => exact hg
  | cons ad rest ih =>
      cases hl : mlookup w.trackedDials ad.Addr with
      | none =>
          rw [timerLoop_cons_untracked hl]
          exact ih w hg
      | some adl =>
          have hg1 : GoodPending { w with trackedDials :=
              (mupdate w.trackedDials ad.Addr (fun x => { x with dialed := true })) } := by
            intro q hq
            obtain ⟨h1, h2, h3⟩ := hg q hq
            refine ⟨h1, h2, ?_⟩
            intro b hb
            show (mlookup (mupdate w.trackedDials ad.Addr
              (fun x => { x with dialed := true })) b).isSome = true
            exact isSome_mupdate (h3 b hb)
          cases ho : outcomes ad.Addr with
          | none =>
              rw [timerLoop_cons_ok hl ho]
              refine ih _ ?_
              intro q hq
              exact hg1 q hq
          | some e =>
              rw [timerLoop_cons_err hl ho]
              exact ih _ (good_dispatchError ad.Addr e probe hg1)

theorem good_procEvent {w : Worker} (ev : Event) (hg : GoodPending w) :
    GoodPending (procEvent w ev) := by
  cases ev with
  | request r => exact good_procRequest r hg
  | timerFire outcomes probe =>
      have hg' : GoodPending { w with dq := (dqNextBatch w.dq).2 } := by
        intro q hq
        exact hg q hq
      exact good_timerLoop (dqNextBatch w.dq).1 _ hg'
  | dialStarted a =>
      cases hl : mlookup w.trackedDials a with
      | none =>
          rw [show procEvent w (.dialStarted a)
            = { w with dialsInFlight := w.dialsInFlight - 1 }
            from procStarted_untracked hl]
          intro q hq
          exact hg q hq
      | some adl =>
          rw [show procEvent w (.dialStarted a) = w from procStarted_tracked hl]
          exact hg
  | dialFailed a e probe =>
      cases hl : mlookup w.trackedDials a with
      | none =>
          rw [show procEvent w (.dialFailed a e probe)
            = { w with dialsInFlight := w.dialsInFlight - 1 }
            from procFailed_untracked hl]
          intro q hq
          exact hg q hq
      | some adl =>
          rw [show procEvent w (.dialFailed a e probe)
            = dispatchError { w with dialsInFlight := w.dialsInFlight - 1 } a e probe
            from procFailed_tracked hl]
          refine good_dispatchError a e probe ?_
          intro q hq
          exact hg q hq
  | dialSucceeded a c peerOk addOk probe =>
      cases hl : mlookup w.trackedDials a with
      | none =>
          rw [show procEvent w (.dialSucceeded a c peerOk addOk probe)
            = { w with dialsInFlight := w.dialsInFlight - 1 }
            from procSucceeded_untracked hl]
          intro q hq
          exact hg q hq
      | some adl =>
          rw [show procEvent w (.dialSucceeded a c peerOk addOk probe)
            = handleSuccess { w with dialsInFlight := w.dialsInFlight - 1 } a c peerOk
                addOk probe from procSucceeded_tracked hl]
          refine good_handleSuccess a c peerOk addOk probe ?_
          intro q hq
          exact hg q hq

theorem good_runFrom (es : List Event) (w : Worker) (hg : GoodPending w) :
    GoodPending (runFrom w es) := by
  induction es generalizing w with
  | nil => exact hg
  | cons e rest ih => exact ih _ (good_procEvent e hg)

theorem good_run (es : List Event) : GoodPending (run es) := by
  refine good_runFrom es initWorker ?_
  intro q hq
  cases hq

/-! #### Progress: a pending request is answered once its remaining
addresses all report failure -/

theorem pcount_eq_zero {r : ReqId} {l : List PendRequest}
    (h : ∀ q ∈ l, ¬ q.id = r) : pcount r l = 0 := by
  simp only [pcount, List.length_eq_zero]
  rw [List.filter_eq_nil_iff]
  intro q hq
  simpa using h q hq

theorem rcount_eq_zero {r : ReqId} {l : List (ReqId × DialResponse)}
    (h : ∀ p ∈ l, ¬ p.1 = r) : rcount r l = 0 := by
  simp only [rcount, List.length_eq_zero]
  rw [List.filter_eq_nil_iff]
  intro p hp
  simpa using h p hp

theorem pcount_pos {r : ReqId} {l : List PendRequest} {pr : PendRequest}
    (hpr : pr ∈ l) (hid : pr.id = r) : 1 ≤ pcount r l := by
  have hmem : pr ∈ l.filter (fun q => q.id == r) :=
    List.mem_filter.mpr ⟨hpr, by simp [hid]⟩
  have := List.length_pos.mpr (List.ne_nil_of_mem hmem)
  simpa [pcount] using this

theorem pcount_one_unique {r : ReqId} {l : List PendRequest} {pr : PendRequest}
    (hc : pcount r l = 1) (hpr : pr ∈ l) (hid : pr.id = r) :
    ∀ q ∈ l, q.id = r → q = pr := by
  obtain ⟨x, hx⟩ := List.length_eq_one.mp hc
  have hprf : pr ∈ l.filter (fun q => q.id == r) :=
    List.mem_filter.mpr ⟨hpr, by simp [hid]⟩
  rw [hx] at hprf
  have hprx : pr = x := List.mem_singleton.mp hprf
  intro q hq hqid
  have hqf : q ∈ l.filter (fun q => q.id == r) :=
    List.mem_filter.mpr ⟨hq, by simp [hqid]⟩
  rw [hx] at hqf
  rw [List.mem_singleton.mp hqf, hprx]

/-- The environment cooperation events for one pending request: each
remaining address reports a terminal transport error. -/
def mkFail (l : List Addr) : List Event :=
  l.map (fun a => .dialFailed a (.transport 0) (fun _ => none))

theorem reqCount_mkFail (l : List Addr) (r : ReqId) : reqCount (mkFail l) r = 0 := by
  induction l with
  | nil => rfl
  | cons a rest ih =>
      rw [show mkFail (a :: rest)
        = (.dialFailed a (.transport 0) (fun _ => none)) :: mkFail rest from rfl]
      rw [reqCount_cons, ih]
      rfl

theorem progress_aux (l : List Addr) :
    ∀ (w : Worker) (pr : PendRequest), GoodPending w → pr ∈ w.pending →
      pr.addrs = l → pendCount w pr.id = 1 →
      pendCount (runFrom w (mkFail l)) pr.id = 0 := by
  induction l with
  | nil =>
      intro w pr hg hpr haddrs hc
      exact absurd haddrs (hg pr hpr).1
  | cons a rest ih =>
      intro w pr hg hpr haddrs hc
      have hmem_a : a ∈ pr.addrs := by
        rw [haddrs]
        exact List.mem_cons_self _ _
      have hnodup : pr.addrs.Nodup := (hg pr hpr).2.1
      have hsome : (mlookup w.trackedDials a).isSome = true := (hg pr hpr).2.2 a hmem_a
      obtain ⟨adl, hadl⟩ : ∃ adl, mlookup w.trackedDials a = some adl := by
        cases hmm : mlookup w.trackedDials a with
        | none => rw [hmm] at hsome; cases hsome
        | some v => exact ⟨v, rfl⟩
      have herase : pr.addrs.erase a = rest := by
        rw [haddrs]
        exact List.erase_cons_head a rest
      have huniq := pcount_one_unique hc hpr rfl
      have hstep : runFrom w (mkFail (a :: rest))
          = runFrom (dispatchError { w with dialsInFlight := w.dialsInFlight - 1 }
              a (.transport 0) (fun _ => none)) (mkFail rest) := by
        rw [show mkFail (a :: rest)
          = (.dialFailed a (.transport 0) (fun _ => none)) :: mkFail rest from rfl]
        rw [show runFrom w ((Event.dialFailed a (.transport 0) (fun _ => none))
            :: mkFail rest)
          = runFrom (procEvent w (.dialFailed a (.transport 0) (fun _ => none)))
              (mkFail rest) from rfl]
        rw [show procEvent w (.dialFailed a (.transport 0) (fun _ => none))
          = dispatchError { w with dialsInFlight := w.dialsInFlight - 1 }
              a (.transport 0) (fun _ => none) from procFailed_tracked hadl]
      have hg1 : GoodPending { w with dialsInFlight := w.dialsInFlight - 1 } := by
        intro q hq
        exact hg q hq
      have hpend2 : (dispatchError { w with dialsInFlight := w.dialsInFlight - 1 }
          a (.transport 0) (fun _ => none)).pending
          = (dispatchPend a (.transport 0) (fun _ => none) w.pending).1 := rfl
      cases rest with
      | nil =>
          rw [hstep]
          rw [show runFrom (dispatchError
              { w with dialsInFlight := w.dialsInFlight - 1 }
              a (.transport 0) (fun _ => none)) (mkFail []) = dispatchError
              { w with dialsInFlight := w.dialsInFlight - 1 }
              a (.transport 0) (fun _ => none) from rfl]
          show pcount pr.id (dispatchPend a (.transport 0) (fun _ => none) w.pending).1
            = 0
          refine pcount_eq_zero ?_
          intro q hq hqid
          rcases dispatchPend_pending_shape a (.transport 0) (fun _ => none)
            w.pending q hq with ⟨hql, hqa⟩ | ⟨pr', hpr', ha', hne', hupd⟩
          · rw [huniq q hql hqid] at hqa
            exact hqa hmem_a
          · have hid' : pr'.id = pr.id := by
              rw [hupd] at hqid
              exact hqid
            rw [huniq pr' hpr' hid'] at hne'
            rw [herase] at hne'
            exact hne' rfl
      | cons b rest' =>
          have hne : pr.addrs.erase a ≠ [] := by
            rw [herase]
            exact List.cons_ne_nil b rest'
          have hmem' : ({ pr with
              errs := pr.errs ++ [(a, .transport 0)]
              addrs := pr.addrs.erase a } : PendRequest)
              ∈ (dispatchPend a (.transport 0) (fun _ => none) w.pending).1 :=
            dispatchPend_mem_shrunk a (.transport 0) (fun _ => none) w.pending pr hpr
              hmem_a hne
          have hbal := dispatchPend_balance a (.transport 0) (fun _ => none)
            w.pending pr.id
          have hrz : rcount pr.id
              (dispatchPend a (.transport 0) (fun _ => none) w.pending).2 = 0 := by
            refine rcount_eq_zero ?_
            intro p hp hpid
            obtain ⟨pr'', hpr'', ha'', hemp'', hp3⟩ := dispatchPend_resp_shape
              a (.transport 0) (fun _ => none) w.pending p hp
            have hid'' : pr''.id = pr.id := by
              rw [hp3] at hpid
              exact hpid
            rw [huniq pr'' hpr'' hid''] at hemp''
            rw [herase] at hemp''
            cases hemp''
          have hcnt2 : pcount pr.id
              (dispatchPend a (.transport 0) (fun _ => none) w.pending).1 = 1 := by
            rw [hrz] at hbal
            have hc' : pcount pr.id w.pending = 1 := hc
            rw [hc'] at hbal
            omega
          rw [hstep]
          have hgood2 := good_dispatchError a (.transport 0) (fun _ => none) hg1
          have hres := ih (dispatchError
              { w with dialsInFlight := w.dialsInFlight - 1 }
              a (.transport 0) (fun _ => none))
            { pr with
              errs := pr.errs ++ [(a, .transport 0)]
              addrs := pr.addrs.erase a }
            hgood2 hmem' (by rw [herase]) ?_
          · exact hres
          · show pcount pr.id
              (dispatchPend a (.transport 0) (fun _ => none) w.pending).1 = 1
            exact hcnt2

/-- The ids of the requests submitted in a trace. -/
def reqIds (es : List Event) : List ReqId :=
  es.filterMap (fun e => match e with | .request q => some q.rid | _ => none)

theorem reqCount_eq_count (es : List Event) (r : ReqId) :
    reqCount es r = (reqIds es).count r := by
  induction es with
  | nil => rfl
  | cons e rest ih =>
      rw [reqCount_cons, ih]
      cases e with
      | request q =>
          have h1 : reqIds (.request q :: rest) = q.rid :: reqIds rest := rfl
          rw [h1, List.count_cons]
          by_cases h : q.rid = r
          · simp [reqDelta, h, Nat.add_comm]
          · simp [reqDelta, h]
      | timerFire outcomes probe => exact Nat.zero_add _
      | dialStarted a => exact Nat.zero_add _
      | dialSucceeded a c pk ao probe => exact Nat.zero_add _
      | dialFailed a e probe => exact Nat.zero_add _

/-- C1: over every execution of the worker loop, each submitted dial request
receives at most one response; the number of responses plus the number of
pending-request records for the id always equals the number of submissions,
so every resolved request has received exactly one response and no response
is ever written for a request that is still pending; and from any reachable
state, every still-pending request is answered by exactly one response once
its remaining addresses report terminal failures (the environment
cooperation that Go's transport guarantees for in-flight dials). -/
theorem claim_C1_exactly_one_response (tr : List Event) (r : ReqId)
    (hnodup : (reqIds tr).Nodup) :
    respCount (run tr) r ≤ 1 ∧
    respCount (run tr) r + pendCount (run tr) r = reqCount tr r ∧
    (pendCount (run tr) r = 0 → respCount (run tr) r = reqCount tr r) ∧
    (∀ pr ∈ (run tr).pending, pr.id = r →
      ∃ es, respCount (runFrom (run tr) es) r = 1) := by
  have hbal : respCount (run tr) r + pendCount (run tr) r = reqCount tr r := by
    have h := bal_runFrom tr initWorker r
    have h0 : respCount initWorker r = 0 := rfl
    have h1 : pendCount initWorker r = 0 := rfl
    rw [h0, h1] at h
    show respCount (runFrom initWorker tr) r + pendCount (runFrom initWorker tr) r
      = reqCount tr r
    omega
  have hle1 : reqCount tr r ≤ 1 := by
    rw [reqCount_eq_count]
    exact List.nodup_iff_count_le_one.mp hnodup r
  refine ⟨by omega, hbal, by omega, ?_⟩
  intro pr hpr hid
  have hp1 : 1 ≤ pendCount (run tr) r := pcount_pos hpr hid
  have hpend1 : pendCount (run tr) r = 1 := by omega
  have hresp0 : respCount (run tr) r = 0 := by omega
  refine ⟨mkFail pr.addrs, ?_⟩
  have hz := progress_aux pr.addrs (run tr) pr (good_run tr) hpr rfl
    (by rw [hid]; exact hpend1)
  rw [hid] at hz
  have hbal2 := bal_runFrom (mkFail pr.addrs) (run tr) r
  rw [reqCount_mkFail] at hbal2
  omega

def demoTr : List Event := [.request ⟨0, false, none, none, [], [], none, []⟩]

theorem claim_C1_witness : respCount (run demoTr) 0 ≤ 1 :=
  (claim_C1_exactly_one_response demoTr 0 (by decide)).1

end DialWorker
